import Mathlib

/-!
Verification development for the transition-based decoding engine of this
repository, embedding `Parser.parse` (beam search) and `Parser.score`
(teacher-forced scoring) from `src/gan/gen_pyt/model/parser.py`.

Modelling conventions.  Probabilities and scores are exact rationals; the
numeric logarithm (`torch.log`) is an abstract parameter `lg : Rat -> Rat`,
since none of the verified properties depend on its values.  The external
Scorer collaborator (the neural layers, declared out of scope by the spec) is
represented by its per-step output tensors, given as abstract inputs.  The
transition system, the hypothesis tree and `clone_and_apply_action_info`
(repository code outside `src/`) are kept abstract behind an environment
record, so all theorems quantify over them.  `torch.topk` is modelled as
selection of the k largest entries sorted in descending order with ties
resolved to the lower index, matching its observed CPU behaviour.
-/

namespace Multivac

/-- Modelled from the spec: the closed primitive-token vocabulary with its
designated unknown slot (the `Vocab` class lives outside `src/`; spec sections
2 and 4.2: stable integer ids for tokens, a membership test, and an unknown
token slot whose literal word can be looked up). `toId` is `vocab[token]`
combined with the `token in vocab` membership test, `idToWord` is
`idxToLabel` / `id2word`, and `unk` is the unknown slot index. -/
structure Vocab where
  size : Nat
  unk : Nat
  toId : String → Option Nat
  idToWord : Nat → String

/-- The three action kinds of the transition system (spec section 3: a closed
tagged union). -/
inductive ActType
  | applyRule
  | reduce
  | genToken
deriving DecidableEq, Repr

/-- Concrete actions: `ApplyRuleAction` carries a production id (the source
passes production objects and converts with `grammar.prod2id` /
`grammar.id2prod`, a fixed bijection, so ids are used directly),
`ReduceAction`, and `GenTokenAction` carries the token text. -/
inductive Action
  | applyRule (prodId : Nat)
  | reduce
  | genToken (token : String)
deriving DecidableEq, Repr

/-- One `setdefault(token, []).append(token_pos)` update of the ordered
token-to-positions map (parser.py lines 610-613): if the token is already a
key, its position list is extended, otherwise the token is appended as a new
key at the end. -/
def addOcc : List (String × List Nat) → String → Nat → List (String × List Nat)
  | [], tok, pos => [(tok, [pos])]
  | (t, ps) :: rest, tok, pos =>
      if t = tok then (t, ps ++ [pos]) :: rest
      else (t, ps) :: addOcc rest tok pos

/-- The enumeration loop building `aggregated_primitive_tokens`. -/
def aggAux : List String → Nat → List (String × List Nat) → List (String × List Nat)
  | [], _, acc => acc
  | tok :: rest, pos, acc => aggAux rest (pos + 1) (addOcc acc tok pos)

/-- The map `aggregated_primitive_tokens` (parser.py lines 610-613): the ordered map
from each distinct surface token of the utterance to the list of its
occurrence positions. -/
def aggregated_primitive_tokens (src_sent : List String) : List (String × List Nat) :=
  aggAux src_sent 0 []

/-- Key lookup in the ordered map (Python `token in dict` / `dict[token]`). -/
def aggLookup : List (String × List Nat) → String → Option (List Nat)
  | [], _ => none
  | (t, ps) :: rest, tok => if t = tok then some ps else aggLookup rest tok

/-- Positions of `tok` in `l`, counted from `start`. -/
def occFrom : List String → Nat → String → List Nat
  | [], _, _ => []
  | t :: rest, start, tok =>
      if t = tok then start :: occFrom rest (start + 1) tok
      else occFrom rest (start + 1) tok

/-- All occurrence positions of a token in the utterance. -/
def occurrences (l : List String) (tok : String) : List Nat :=
  occFrom l 0 tok

/-- The abstract interface of the grammar and transition system used by
`parse` (`self.transition_system`, `self.grammar`, the `Hypothesis` tree and
`clone_and_apply_action_info` are repository code outside `src/`, so they are
kept abstract; every theorem quantifies over them). `σ` is the derivation-tree
plus frontier state of a hypothesis; `grammarSize` is `len(self.grammar)`,
whose value also serves as the Reduce sentinel index. -/
structure Env (σ : Type) where
  grammarSize : Nat
  vocab : Vocab
  no_copy : Bool
  lg : Rat → Rat
  get_valid_continuation_types : σ → List ActType
  get_valid_continuating_productions : σ → List Nat
  clone_and_apply_action : σ → Action → σ
  completed : σ → Bool

/-- A hypothesis as `parse` sees it: abstract tree state, cumulative score and
step counter. -/
structure Hyp (σ : Type) where
  state : σ
  score : Rat
  t : Nat

/-- Scorer outputs for one beam-search step, indexed by live-hypothesis id and
slot: `apply_rule_log_prob`, `gen_from_vocab_prob`, `primitive_copy_prob` and
the two generate/copy gate entries of `primitive_predictor_prob` (the Scorer
is the out-of-scope numeric collaborator, spec section 6, so its outputs are
inputs of the embedding). -/
structure StepProbs where
  apply_rule_log_prob : Nat → Nat → Rat
  gen_from_vocab_prob : Nat → Nat → Rat
  primitive_copy_prob : Nat → Nat → Rat
  gate_gen : Nat → Rat
  gate_copy : Nat → Rat

/-- Row `hyp_id` of `primitive_prob` before copy aggregation (parser.py lines
729-739): the plain generation distribution when copying is disabled,
otherwise the generation distribution scaled by the generate gate. -/
def base_primitive_prob {σ : Type} (env : Env σ) (pr : StepProbs) (hyp_id : Nat) :
    Nat → Rat :=
  fun slot =>
    if env.no_copy then pr.gen_from_vocab_prob hyp_id slot
    else pr.gate_gen hyp_id * pr.gen_from_vocab_prob hyp_id slot

/-- The quantity `sum_copy_prob` (parser.py line 787): total copy-attention mass over one
token's occurrence positions. -/
def sum_copy_prob (pr : StepProbs) (hyp_id : Nat) (token_pos_list : List Nat) : Rat :=
  (token_pos_list.map (pr.primitive_copy_prob hyp_id)).sum

/-- One element of `hyp_unk_copy_info` (parser.py line 795). -/
structure UnkEntry where
  token : String
  token_pos_list : List Nat
  copy_prob : Rat
deriving Repr, Inhabited, DecidableEq

/-- The body of `for token, token_pos_list in aggregated_primitive_tokens`
(parser.py lines 786-796): an in-vocabulary token's gated copy mass is added
at its vocabulary slot, an out-of-vocabulary token is appended to
`hyp_unk_copy_info`. -/
def copy_pass_step {σ : Type} (env : Env σ) (pr : StepProbs) (hyp_id : Nat)
    (acc : (Nat → Rat) × List UnkEntry) (entry : String × List Nat) :
    (Nat → Rat) × List UnkEntry :=
  let gated := pr.gate_copy hyp_id * sum_copy_prob pr hyp_id entry.2
  match env.vocab.toId entry.1 with
  | some token_id =>
      (fun slot => if slot = token_id then acc.1 slot + gated else acc.1 slot, acc.2)
  | none => (acc.1, acc.2 ++ [⟨entry.1, entry.2, gated⟩])

/-- The copy-aggregation pass for one hypothesis row (parser.py lines
785-796). -/
def copy_pass {σ : Type} (env : Env σ) (pr : StepProbs)
    (agg : List (String × List Nat)) (hyp_id : Nat) (row : Nat → Rat) :
    (Nat → Rat) × List UnkEntry :=
  agg.foldl (copy_pass_step env pr hyp_id) (row, [])

/-- First index of the maximum element (`np.argmax`); 0 on the empty list,
where the source would raise. -/
def np_argmax : List Rat → Nat
  | [] => 0
  | [_] => 0
  | v :: rest =>
      let j := np_argmax rest
      if v < rest.getD j 0 then j + 1 else 0

/-- Accumulator of the per-hypothesis GenToken work inside the candidate loop:
the hypothesis's `primitive_prob` row, its contributions to
`gentoken_prev_hyp_ids`, and its contributions to `gentoken_new_hyp_unks`. -/
structure GenScan where
  row : Nat → Rat
  ids : List Nat
  unks : List String

/-- One iteration of `for action_type in action_types` restricted to the
GenToken branch (parser.py lines 779-802): record the hypothesis id; with
copying enabled run the copy pass, and if any unknown-copy candidates exist,
overwrite the unknown slot with the largest accumulated copy mass
(`np.argmax`, first maximum) and record that candidate's surface token. -/
def gen_scan_step {σ : Type} (env : Env σ) (pr : StepProbs)
    (agg : List (String × List Nat)) (hyp_id : Nat) (acc : GenScan) (ty : ActType) :
    GenScan :=
  match ty with
  | ActType.genToken =>
      if env.no_copy then ⟨acc.row, acc.ids ++ [hyp_id], acc.unks⟩
      else
        let res := copy_pass env pr agg hyp_id acc.row
        if res.2.isEmpty then ⟨res.1, acc.ids ++ [hyp_id], acc.unks⟩
        else
          let best := res.2.getD (np_argmax (res.2.map UnkEntry.copy_prob)) default
          ⟨fun slot => if slot = env.vocab.unk then best.copy_prob else res.1 slot,
           acc.ids ++ [hyp_id], acc.unks ++ [best.token]⟩
  | _ => acc

/-- Full GenToken-side scan of one hypothesis over its legal continuation
types. -/
def gen_scan {σ : Type} (env : Env σ) (pr : StepProbs)
    (agg : List (String × List Nat)) (hyp_id : Nat) (s : σ) : GenScan :=
  (env.get_valid_continuation_types s).foldl (gen_scan_step env pr agg hyp_id)
    ⟨base_primitive_prob env pr hyp_id, [], []⟩

/-- The scans of all live hypotheses, in hypothesis order. -/
def gen_scan_list {σ : Type} (env : Env σ) (pr : StepProbs)
    (agg : List (String × List Nat)) (hyps : List (Hyp σ)) : List GenScan :=
  hyps.enum.map (fun p => gen_scan env pr agg p.1 p.2.state)

/-- The list `gentoken_prev_hyp_ids` (parser.py line 781). -/
def gentoken_prev_hyp_ids {σ : Type} (env : Env σ) (pr : StepProbs)
    (agg : List (String × List Nat)) (hyps : List (Hyp σ)) : List Nat :=
  ((gen_scan_list env pr agg hyps).map GenScan.ids).flatten

/-- The list `gentoken_new_hyp_unks` (parser.py line 802). -/
def gentoken_new_hyp_unks {σ : Type} (env : Env σ) (pr : StepProbs)
    (agg : List (String × List Nat)) (hyps : List (Hyp σ)) : List String :=
  ((gen_scan_list env pr agg hyps).map GenScan.unks).flatten

/-- The final `primitive_prob` row of a hypothesis after the candidate loop
(only a hypothesis's own GenToken branch mutates its row). -/
def primitive_prob_row {σ : Type} (env : Env σ) (pr : StepProbs)
    (agg : List (String × List Nat)) (hyps : List (Hyp σ)) (hyp_id : Nat) :
    Nat → Rat :=
  ((gen_scan_list env pr agg hyps).getD hyp_id
    ⟨base_primitive_prob env pr hyp_id, [], []⟩).row

/-- The matrix `primitive_log_prob = torch.log(primitive_prob)` (parser.py line 811): the
logarithm is applied to the aggregated probabilities exactly as they stand. -/
def primitive_log_prob {σ : Type} (env : Env σ) (pr : StepProbs)
    (agg : List (String × List Nat)) (hyps : List (Hyp σ)) (hyp_id slot : Nat) : Rat :=
  env.lg (primitive_prob_row env pr agg hyps hyp_id slot)

/-- One entry of the three parallel lists `applyrule_new_hyp_scores`,
`applyrule_new_hyp_prod_ids`, `applyrule_prev_hyp_ids` (parser.py lines
768-770 and 776-778), which are always appended together. -/
structure RuleCand where
  new_hyp_score : Rat
  prod_id : Nat
  prev_hyp_id : Nat
deriving Repr, DecidableEq

/-- ApplyRule and Reduce candidates contributed by one hypothesis (parser.py
lines 757-778): one candidate per legal production scored
`hyp.score + apply_rule_log_prob[hyp_id, prod_id]`, and for Reduce one
candidate at the sentinel index `len(grammar)`. -/
def applyrule_cands_of_hyp {σ : Type} (env : Env σ) (pr : StepProbs)
    (hyp_id : Nat) (h : Hyp σ) : List RuleCand :=
  (env.get_valid_continuation_types h.state).flatMap
    (fun ty =>
      match ty with
      | ActType.applyRule =>
          (env.get_valid_continuating_productions h.state).map
            (fun prod_id =>
              ⟨h.score + pr.apply_rule_log_prob hyp_id prod_id, prod_id, hyp_id⟩)
      | ActType.reduce =>
          [⟨h.score + pr.apply_rule_log_prob hyp_id env.grammarSize,
            env.grammarSize, hyp_id⟩]
      | ActType.genToken => [])

/-- All ApplyRule/Reduce candidates, over all live hypotheses in order. -/
def applyrule_cands {σ : Type} (env : Env σ) (pr : StepProbs)
    (hyps : List (Hyp σ)) : List RuleCand :=
  hyps.enum.flatMap (fun p => applyrule_cands_of_hyp env pr p.1 p.2)

/-- The block `gen_token_new_hyp_scores` (parser.py lines 812-813): the row-major
flattening of `hyp_scores[gentoken_prev_hyp_ids].unsqueeze(1) +
primitive_log_prob[gentoken_prev_hyp_ids, :]`.  Flat position
`k * vocab.size + slot` holds the candidate of the k-th GenToken hypothesis at
vocabulary slot `slot`; note the baseline is the `hyp_scores` tensor, not the
hypothesis's own `score` attribute. -/
def gen_token_new_hyp_scores {σ : Type} (env : Env σ) (pr : StepProbs)
    (agg : List (String × List Nat)) (hyps : List (Hyp σ))
    (hyp_scores : List Rat) : List Rat :=
  let gn := gentoken_prev_hyp_ids env pr agg hyps
  (List.range (gn.length * env.vocab.size)).map
    (fun r =>
      hyp_scores.getD (gn.getD (r / env.vocab.size) 0) 0 +
        primitive_log_prob env pr agg hyps (gn.getD (r / env.vocab.size) 0)
          (r % env.vocab.size))

/-- The list `new_hyp_scores` (parser.py lines 805-819): the ApplyRule/Reduce block
concatenated before the GenToken block. -/
def new_hyp_scores_list {σ : Type} (env : Env σ) (pr : StepProbs)
    (src_sent : List String) (hyps : List (Hyp σ)) (hyp_scores : List Rat) :
    List Rat :=
  (applyrule_cands env pr hyps).map RuleCand.new_hyp_score ++
    gen_token_new_hyp_scores env pr (aggregated_primitive_tokens src_sent) hyps
      hyp_scores

/-- Candidate preference order used to model `torch.topk`: strictly larger
score first, ties resolved to the lower flat position. -/
def candRank (scores : List Rat) (i j : Nat) : Prop :=
  scores.getD j 0 < scores.getD i 0 ∨
    (scores.getD i 0 = scores.getD j 0 ∧ i ≤ j)

instance (scores : List Rat) : DecidableRel (candRank scores) := by
  intro i j
  unfold candRank
  infer_instance

instance (scores : List Rat) : IsTotal Nat (candRank scores) := by
  constructor
  intro i j
  rcases lt_trichotomy (scores.getD i 0) (scores.getD j 0) with h | h | h
  · exact Or.inr (Or.inl h)
  · rcases Nat.le_total i j with hij | hij
    · exact Or.inl (Or.inr ⟨h, hij⟩)
    · exact Or.inr (Or.inr ⟨h.symm, hij⟩)
  · exact Or.inl (Or.inl h)

instance (scores : List Rat) : IsTrans Nat (candRank scores) := by
  constructor
  intro a b c hab hbc
  rcases hab with hab | ⟨hab, hab2⟩
  · rcases hbc with hbc | ⟨hbc, _⟩
    · exact Or.inl (hbc.trans hab)
    · exact Or.inl (hbc ▸ hab)
  · rcases hbc with hbc | ⟨hbc, hbc2⟩
    · exact Or.inl (hab ▸ hbc)
    · exact Or.inr ⟨hab.trans hbc, hab2.trans hbc2⟩

/-- The `torch.topk(new_hyp_scores, k)` index output: the k best flat positions in
descending score order, ties to the lower position. -/
def top_new_hyp_pos (scores : List Rat) (k : Nat) : List Nat :=
  ((List.range scores.length).insertionSort (candRank scores)).take k

/-- The positions selected at one step (parser.py lines 821-823):
`k = min(len(new_hyp_scores), beam_size - len(completed_hypotheses))`. -/
def selected_positions {σ : Type} (env : Env σ) (pr : StepProbs)
    (src_sent : List String) (hyps : List (Hyp σ)) (hyp_scores : List Rat)
    (beam_size completedCount : Nat) : List Nat :=
  let scores := new_hyp_scores_list env pr src_sent hyps hyp_scores
  top_new_hyp_pos scores (min scores.length (beam_size - completedCount))

/-- The `ActionInfo` data materialized for one selected flat position
(parser.py lines 830-869): for positions inside the ApplyRule/Reduce block an
`ApplyRule` (id below `len(grammar)`) or `Reduce` action; for positions in the
GenToken block the token is resolved from the vocabulary slot, from the
recorded unknown-copy token when the slot is the unknown slot and any
unknown-copy token was recorded, and from the literal unknown word otherwise;
copy provenance is recorded when the token occurs in the utterance. -/
structure StepAction where
  prev_hyp_id : Nat
  action : Action
  copy_from_src : Bool
  src_token_position : List Nat
deriving Repr, DecidableEq

/-- Materialization of one selected position. -/
def materialize_action {σ : Type} (env : Env σ) (agg : List (String × List Nat))
    (rc : List RuleCand) (gn_ids : List Nat) (gn_unks : List String)
    (new_hyp_pos : Nat) : StepAction :=
  if new_hyp_pos < rc.length then
    let c := rc.getD new_hyp_pos ⟨0, 0, 0⟩
    ⟨c.prev_hyp_id,
     if c.prod_id < env.grammarSize then Action.applyRule c.prod_id else Action.reduce,
     false, []⟩
  else
    let token_id := (new_hyp_pos - rc.length) % env.vocab.size
    let k := (new_hyp_pos - rc.length) / env.vocab.size
    let prev_hyp_id := gn_ids.getD k 0
    let token :=
      if token_id = env.vocab.unk then
        if gn_unks.isEmpty then env.vocab.idToWord env.vocab.unk
        else gn_unks.getD k ""
      else env.vocab.idToWord token_id
    ⟨prev_hyp_id, Action.genToken token,
     (aggLookup agg token).isSome, (aggLookup agg token).getD []⟩

/-- Outcome of applying the selected candidates (parser.py lines 827-891). -/
structure StepOut (σ : Type) where
  new_hypotheses : List (Hyp σ)
  live_hyp_ids : List Nat
  new_completed : List (Hyp σ)

/-- One iteration of the application loop (parser.py lines 830-891): the
selected candidate's action is applied to a clone of its originating
hypothesis, the clone's score is overwritten with the candidate score, and
the clone joins the completed set or the next live beam according to its
`completed` flag.  An out-of-range originating hypothesis (impossible for the
positions `parse` produces) is skipped. -/
def apply_selected_step {σ : Type} (env : Env σ) (hyps : List (Hyp σ))
    (agg : List (String × List Nat)) (rc : List RuleCand) (gn_ids : List Nat)
    (gn_unks : List String) (scores : List Rat) (acc : StepOut σ) (pos : Nat) :
    StepOut σ :=
  let sa := materialize_action env agg rc gn_ids gn_unks pos
  match hyps[sa.prev_hyp_id]? with
  | none => acc
  | some prev_hyp =>
      let new_state := env.clone_and_apply_action prev_hyp.state sa.action
      let new_hyp : Hyp σ := ⟨new_state, scores.getD pos 0, prev_hyp.t + 1⟩
      if env.completed new_state then
        ⟨acc.new_hypotheses, acc.live_hyp_ids, acc.new_completed ++ [new_hyp]⟩
      else
        ⟨acc.new_hypotheses ++ [new_hyp], acc.live_hyp_ids ++ [sa.prev_hyp_id],
         acc.new_completed⟩

/-- Application loop over the selected positions, in `topk` order. -/
def apply_selected {σ : Type} (env : Env σ) (hyps : List (Hyp σ))
    (agg : List (String × List Nat)) (rc : List RuleCand) (gn_ids : List Nat)
    (gn_unks : List String) (scores : List Rat) (sel : List Nat) : StepOut σ :=
  sel.foldl (apply_selected_step env hyps agg rc gn_ids gn_unks scores) ⟨[], [], []⟩

/-- All data of one beam-search step. -/
structure BeamStepData (σ : Type) where
  rc : List RuleCand
  gn_ids : List Nat
  gn_unks : List String
  new_hyp_scores : List Rat
  sel : List Nat
  out : StepOut σ

/-- One full beam-search step of `parse` (parser.py lines 633-891), from the
current live hypotheses and the `hyp_scores` tensor. -/
def beam_step {σ : Type} (env : Env σ) (pr : StepProbs) (src_sent : List String)
    (hyps : List (Hyp σ)) (hyp_scores : List Rat)
    (beam_size completedCount : Nat) : BeamStepData σ :=
  let agg := aggregated_primitive_tokens src_sent
  let rc := applyrule_cands env pr hyps
  let gn_ids := gentoken_prev_hyp_ids env pr agg hyps
  let gn_unks := gentoken_new_hyp_unks env pr agg hyps
  let scores := new_hyp_scores_list env pr src_sent hyps hyp_scores
  let sel := top_new_hyp_pos scores (min scores.length (beam_size - completedCount))
  ⟨rc, gn_ids, gn_unks, scores, sel,
   apply_selected env hyps agg rc gn_ids gn_unks scores sel⟩

/-- The `while` loop of `parse` (parser.py lines 632-901); `fuel` counts the
remaining steps to `decode_max_time_step` and `oracle` provides each step's
Scorer outputs.  On early termination (no live survivor) the stale `hypotheses`
list is returned unchanged, exactly as in the source. -/
def beam_loop {σ : Type} (env : Env σ) (oracle : Nat → StepProbs)
    (src_sent : List String) (beam_size : Nat) :
    Nat → Nat → List (Hyp σ) → List Rat → List (Hyp σ) →
      List (Hyp σ) × List (Hyp σ)
  | 0, _, hyps, _, completed => (completed, hyps)
  | fuel + 1, t, hyps, hyp_scores, completed =>
      if completed.length < beam_size then
        let st := beam_step env (oracle t) src_sent hyps hyp_scores beam_size
          completed.length
        let completed2 := completed ++ st.out.new_completed
        if st.out.live_hyp_ids.isEmpty then (completed2, hyps)
        else
          beam_loop env oracle src_sent beam_size fuel (t + 1)
            st.out.new_hypotheses (st.out.new_hypotheses.map Hyp.score) completed2
      else (completed, hyps)

/-- Descending-score order used for the final `result.sort`. -/
def score_desc {σ : Type} (a b : Hyp σ) : Prop := b.score ≤ a.score

instance {σ : Type} : DecidableRel (score_desc (σ := σ)) := by
  intro a b
  unfold score_desc
  infer_instance

instance {σ : Type} : IsTotal (Hyp σ) score_desc :=
  ⟨fun a b => le_total b.score a.score⟩

instance {σ : Type} : IsTrans (Hyp σ) score_desc :=
  ⟨fun _ _ _ hab hbc => le_trans hbc hab⟩

/-- The final `result.sort(key=lambda hyp: -hyp.score)`: stable sort by descending
cumulative score. -/
def result_sort {σ : Type} (l : List (Hyp σ)) : List (Hyp σ) :=
  l.insertionSort score_desc

/-- The tail of `parse` after initialisation (parser.py lines 628-918): the
`hyp_scores` tensor always starts as `[0.]` (line 628, for fresh and resumed
calls alike), the loop runs until the beam fills or the step bound is hit, and
the completed set is returned when non-empty, the live list otherwise, sorted
by descending score. -/
def parse_from {σ : Type} (env : Env σ) (oracle : Nat → StepProbs)
    (src_sent : List String) (t0 : Nat) (hyps0 : List (Hyp σ))
    (decode_max_time_step beam_size : Nat) : List (Hyp σ) :=
  let res := beam_loop env oracle src_sent beam_size (decode_max_time_step - t0) t0
    hyps0 [0] []
  if res.1.isEmpty then result_sort res.2 else result_sort res.1

/-- A fresh `parse` call (`hyp is None`): step 0, one empty hypothesis with
score 0. -/
def parse_fresh {σ : Type} (env : Env σ) (oracle : Nat → StepProbs)
    (src_sent : List String) (initState : σ)
    (decode_max_time_step beam_size : Nat) : List (Hyp σ) :=
  parse_from env oracle src_sent 0 [⟨initState, 0, 0⟩] decode_max_time_step beam_size

/-- A resumed `parse` call (`hyp` supplied with its state history): decoding
restarts at `hyp.t` from the saved hypothesis, but `hyp_scores` is still
initialised to `[0.]` inside `parse_from`. -/
def parse_resumed {σ : Type} (env : Env σ) (oracle : Nat → StepProbs)
    (src_sent : List String) (hyp : Hyp σ)
    (decode_max_time_step beam_size : Nat) : List (Hyp σ) :=
  parse_from env oracle src_sent hyp.t [hyp] decode_max_time_step beam_size

/-- Position list stored for a token, empty when the token is not a key. -/
def entryD (agg : List (String × List Nat)) (tok : String) : List Nat :=
  (aggLookup agg tok).getD []

/-- Gated copy mass that one map entry contributes at a vocabulary slot. -/
def copy_add_entry {σ : Type} (env : Env σ) (pr : StepProbs) (hyp_id : Nat)
    (e : String × List Nat) (slot : Nat) : Rat :=
  match env.vocab.toId e.1 with
  | some j =>
      if slot = j then pr.gate_copy hyp_id * sum_copy_prob pr hyp_id e.2 else 0
  | none => 0

/-- Total gated copy mass added at a vocabulary slot by the copy pass. -/
def copy_add {σ : Type} (env : Env σ) (pr : StepProbs) (hyp_id : Nat)
    (agg : List (String × List Nat)) (slot : Nat) : Rat :=
  (agg.map (fun e => copy_add_entry env pr hyp_id e slot)).sum

/-- The `hyp_unk_copy_info` list produced by the copy pass: one entry per
out-of-vocabulary utterance token, in map order. -/
def unk_info_of {σ : Type} (env : Env σ) (pr : StepProbs) (hyp_id : Nat)
    (agg : List (String × List Nat)) : List UnkEntry :=
  agg.filterMap (fun e =>
    match env.vocab.toId e.1 with
    | some _ => none
    | none => some ⟨e.1, e.2, pr.gate_copy hyp_id * sum_copy_prob pr hyp_id e.2⟩)

/-- The unknown-copy candidate with the largest accumulated copy mass
(`np.argmax`, first maximum) among a hypothesis's `hyp_unk_copy_info`
(parser.py lines 798-800). -/
def best_unk {σ : Type} (env : Env σ) (pr : StepProbs) (hyp_id : Nat)
    (agg : List (String × List Nat)) : UnkEntry :=
  (unk_info_of env pr hyp_id agg).getD
    (np_argmax ((unk_info_of env pr hyp_id agg).map UnkEntry.copy_prob)) default

/-! ### Teacher-forced scoring (`Parser.score`, copy branch) -/

/-- Modelled from the spec: one training example of teacher-forced scoring —
the utterance tokens and the gold action sequence (spec section 4.4; the
`Example` and `Batch` classes live outside `src/`). -/
structure TFExample where
  src_sent : List String
  tgt_actions : List Action

/-- Modelled from the spec: `batch.apply_rule_mask` — 1 exactly at steps whose
gold action is ApplyRule or Reduce, 0 at GenToken steps and past the end of
the example (padding). -/
def apply_rule_mask (ex : TFExample) (t : Nat) : Rat :=
  match ex.tgt_actions[t]? with
  | some (Action.applyRule _) => 1
  | some Action.reduce => 1
  | _ => 0

/-- Modelled from the spec: `batch.gen_token_mask` — 1 exactly at GenToken
steps. -/
def gen_token_mask (ex : TFExample) (t : Nat) : Rat :=
  match ex.tgt_actions[t]? with
  | some (Action.genToken _) => 1
  | _ => 0

/-- Modelled from the spec: `batch.primitive_copy_mask` — 1 exactly at
GenToken steps whose gold token occurs in the utterance. -/
def primitive_copy_mask (ex : TFExample) (t : Nat) : Rat :=
  match ex.tgt_actions[t]? with
  | some (Action.genToken tok) => if tok ∈ ex.src_sent then 1 else 0
  | _ => 0

/-- Modelled from the spec: `batch.apply_rule_idx_matrix` — the gold
production slot, the sentinel `len(grammar)` for Reduce, 0 elsewhere. -/
def apply_rule_idx (G : Nat) (ex : TFExample) (t : Nat) : Nat :=
  match ex.tgt_actions[t]? with
  | some (Action.applyRule p) => p
  | some Action.reduce => G
  | _ => 0

/-- Modelled from the spec: `batch.primitive_idx_matrix` — the gold token's
vocabulary slot, the unknown slot for an out-of-vocabulary gold token, 0 at
non-GenToken steps. -/
def primitive_idx (vocab : Vocab) (ex : TFExample) (t : Nat) : Nat :=
  match ex.tgt_actions[t]? with
  | some (Action.genToken tok) => (vocab.toId tok).getD vocab.unk
  | _ => 0

/-- Modelled from the spec: `batch.primitive_copy_token_idx_mask` — 1 at the
utterance positions that hold the gold token of a GenToken step. -/
def primitive_copy_token_idx_mask (ex : TFExample) (t pos : Nat) : Rat :=
  match ex.tgt_actions[t]? with
  | some (Action.genToken tok) => if ex.src_sent[pos]? = some tok then 1 else 0
  | _ => 0

/-- The bound `batch.max_action_num`: the padded target length. -/
def max_action_num (exs : List TFExample) : Nat :=
  (exs.map (fun e => e.tgt_actions.length)).foldr max 0

/-- The padded source length (the copy-attention tensor dimension). -/
def src_max_len (exs : List TFExample) : Nat :=
  (exs.map (fun e => e.src_sent.length)).foldr max 0

/-- Batch indexing with the empty example as padding. -/
def exampleAt (exs : List TFExample) (b : Nat) : TFExample :=
  exs.getD b ⟨[], []⟩

/-- Scorer outputs for teacher-forced scoring, indexed by step, example and
slot (abstract inputs, spec section 6). -/
structure ScoreProbs where
  apply_rule_prob : Nat → Nat → Nat → Rat
  gen_from_vocab_prob : Nat → Nat → Nat → Rat
  primitive_copy_prob : Nat → Nat → Nat → Rat
  gate_gen : Nat → Nat → Rat
  gate_copy : Nat → Nat → Rat

/-- The tensor `tgt_apply_rule_prob` (parser.py lines 304-307): gather of the gold
production slot. -/
def tgt_apply_rule_prob (G : Nat) (sp : ScoreProbs) (exs : List TFExample)
    (t b : Nat) : Rat :=
  sp.apply_rule_prob t b (apply_rule_idx G (exampleAt exs b) t)

/-- The tensor `tgt_primitive_gen_from_vocab_prob` (parser.py lines 316-319). -/
def tgt_primitive_gen_from_vocab_prob (vocab : Vocab) (sp : ScoreProbs)
    (exs : List TFExample) (t b : Nat) : Rat :=
  sp.gen_from_vocab_prob t b (primitive_idx vocab (exampleAt exs b) t)

/-- The tensor `tgt_primitive_copy_prob` (parser.py lines 356-358): copy-attention mass
marginalized over the positions holding the gold token. -/
def tgt_primitive_copy_prob (sp : ScoreProbs) (exs : List TFExample)
    (t b : Nat) : Rat :=
  ((List.range (src_max_len exs)).map (fun pos =>
    sp.primitive_copy_prob t b pos *
      primitive_copy_token_idx_mask (exampleAt exs b) t pos)).sum

/-- The mask `action_mask_pad` (parser.py lines 362-365): true where no action type
applies (all three masks zero). -/
def action_mask_pad (exs : List TFExample) (t b : Nat) : Bool :=
  decide (apply_rule_mask (exampleAt exs b) t + gen_token_mask (exampleAt exs b) t +
    primitive_copy_mask (exampleAt exs b) t = 0)

/-- The three-term mixture before the fill (parser.py lines 369-371). -/
def action_prob_pre (G : Nat) (vocab : Vocab) (sp : ScoreProbs)
    (exs : List TFExample) (t b : Nat) : Rat :=
  tgt_apply_rule_prob G sp exs t b * apply_rule_mask (exampleAt exs b) t +
    sp.gate_gen t b * tgt_primitive_gen_from_vocab_prob vocab sp exs t b *
      gen_token_mask (exampleAt exs b) t +
    sp.gate_copy t b * tgt_primitive_copy_prob sp exs t b *
      primitive_copy_mask (exampleAt exs b) t

/-- The fill `action_prob.data.masked_fill_(action_mask_pad, 1.e-7)` (parser.py line
374): masked positions are replaced by the constant 1e-7 before the log. -/
def action_prob_filled (G : Nat) (vocab : Vocab) (sp : ScoreProbs)
    (exs : List TFExample) (t b : Nat) : Rat :=
  if action_mask_pad exs t b then 1 / 10000000 else action_prob_pre G vocab sp exs t b

/-- The step term `action_prob = action_prob.log() * action_mask` (parser.py line 376). -/
def action_prob_tb (lg : Rat → Rat) (G : Nat) (vocab : Vocab) (sp : ScoreProbs)
    (exs : List TFExample) (t b : Nat) : Rat :=
  lg (action_prob_filled G vocab sp exs t b) *
    (if action_mask_pad exs t b then 0 else 1)

/-- The sum `scores = torch.sum(action_prob, dim=0)` (parser.py line 378): the
per-example teacher-forced sequence score, copy branch. -/
def score_with_copy (lg : Rat → Rat) (G : Nat) (vocab : Vocab) (sp : ScoreProbs)
    (exs : List TFExample) (b : Nat) : Rat :=
  ((List.range (max_action_num exs)).map
    (fun t => action_prob_tb lg G vocab sp exs t b)).sum

/-- The per-step gold log-probability as the spec describes it (spec section
4.4): the gold ApplyRule/Reduce probability, or for GenToken the
generate-gated vocabulary probability of the gold token plus, when the gold
token occurs in the utterance, the copy-gated attention mass marginalized
over the positions holding it. -/
def gold_step_term (lg : Rat → Rat) (G : Nat) (vocab : Vocab) (sp : ScoreProbs)
    (exs : List TFExample) (b t : Nat) : Rat :=
  match (exampleAt exs b).tgt_actions[t]? with
  | some (Action.applyRule p) => lg (sp.apply_rule_prob t b p)
  | some Action.reduce => lg (sp.apply_rule_prob t b G)
  | some (Action.genToken tok) =>
      lg (sp.gate_gen t b * sp.gen_from_vocab_prob t b ((vocab.toId tok).getD vocab.unk) +
        (if tok ∈ (exampleAt exs b).src_sent then
          sp.gate_copy t b * ((List.range (src_max_len exs)).map (fun pos =>
            if (exampleAt exs b).src_sent[pos]? = some tok then
              sp.primitive_copy_prob t b pos else 0)).sum
        else 0))
  | none => 0

/-! ### Concrete instances used to evaluate the embedding -/

/-- A two-word vocabulary: slot 0 is the unknown slot, slot 1 holds `"a"`. -/
def demoVocab : Vocab :=
  ⟨2, 0, fun t => if t = "a" then some 1 else none,
   fun i => if i = 1 then "a" else "<unk>"⟩

/-- A concrete transition system over `Nat` states: state 0 expects the single
production 0, every other state expects a GenToken; applying any action
advances the state; states from 2 on are complete.  Copying enabled; the
numeric logarithm is the identity placeholder (no verified property uses its
values). -/
def envA : Env Nat :=
  ⟨1, demoVocab, false, fun x => x,
   fun s => if s = 0 then [ActType.applyRule] else [ActType.genToken],
   fun _ => [0],
   fun s _ => s + 1,
   fun s => decide (s ≥ 2)⟩

/-- The same transition system with copying disabled. -/
def envB : Env Nat :=
  ⟨1, demoVocab, true, fun x => x,
   fun s => if s = 0 then [ActType.applyRule] else [ActType.genToken],
   fun _ => [0],
   fun s _ => s + 1,
   fun s => decide (s ≥ 2)⟩

/-- Concrete Scorer outputs for one step. -/
def prA : StepProbs :=
  ⟨fun _ p => -(1 + p), fun _ slot => if slot = 0 then 1/8 else 1/2,
   fun _ pos => if pos = 0 then 1/2 else if pos = 1 then 1/4 else 1/8,
   fun _ => 3/4, fun _ => 1/4⟩

/-- The same Scorer outputs with a different generation probability at
slot 1. -/
def prA2 : StepProbs :=
  ⟨fun _ p => -(1 + p), fun _ slot => if slot = 0 then 1/8 else 1/3,
   fun _ pos => if pos = 0 then 1/2 else if pos = 1 then 1/4 else 1/8,
   fun _ => 3/4, fun _ => 1/4⟩

/-- Concrete Scorer outputs used for the resumption example. -/
def prB : StepProbs :=
  ⟨fun _ _ => -1, fun _ slot => if slot = 0 then 1/4 else 3/4,
   fun _ _ => 0, fun _ => 1, fun _ => 0⟩

/-- Two live hypotheses: hypothesis 0 (state 0, rule-legal) with score -1,
hypothesis 1 (state 1, GenToken-legal) with score -2. -/
def hypsA : List (Hyp Nat) := [⟨0, -1, 1⟩, ⟨1, -2, 1⟩]

/-- A saved partial hypothesis: GenToken-legal frontier, cumulative score -2,
step counter 1. -/
def hypB : Hyp Nat := ⟨1, -2, 1⟩

/-- The demonstration utterance `"a a b"`. -/
def srcDemo : List String := ["a", "a", "b"]

/-! ### Properties of `aggregated_primitive_tokens` -/

theorem aggLookup_addOcc_self (acc : List (String × List Nat)) (tok : String)
    (pos : Nat) : aggLookup (addOcc acc tok pos) tok = some (entryD acc tok ++ [pos]) := by
  induction acc with
  | nil => simp [addOcc, aggLookup, entryD]
  | cons e rest ih =>
      obtain ⟨t, ps⟩ := e
      by_cases h : t = tok
      · subst h
        simp [addOcc, aggLookup, entryD]
      · simp [addOcc, aggLookup, h, ih, entryD]

theorem aggLookup_addOcc_ne (acc : List (String × List Nat)) (tok : String)
    (pos : Nat) (tok2 : String) (h : tok2 ≠ tok) :
    aggLookup (addOcc acc tok pos) tok2 = aggLookup acc tok2 := by
  induction acc with
  | nil =>
      have hne : tok ≠ tok2 := fun he => h he.symm
      simp [addOcc, aggLookup, hne]
  | cons e rest ih =>
      obtain ⟨t, ps⟩ := e
      by_cases ht : t = tok
      · subst ht
        have hne : t ≠ tok2 := fun he => h he.symm
        simp [addOcc, aggLookup, hne]
      · simp only [addOcc, if_neg ht, aggLookup]
        by_cases ht2 : t = tok2
        · simp [ht2]
        · simp [ht2, ih]

theorem entryD_aggAux (src : List String) : ∀ (pos : Nat)
    (acc : List (String × List Nat)) (tok : String),
    entryD (aggAux src pos acc) tok = entryD acc tok ++ occFrom src pos tok := by
  induction src with
  | nil => intro pos acc tok; simp [aggAux, occFrom]
  | cons t rest ih =>
      intro pos acc tok
      by_cases h : t = tok
      · subst h
        rw [aggAux, occFrom, if_pos rfl, ih]
        have : entryD (addOcc acc t pos) t = entryD acc t ++ [pos] := by
          simp [entryD, aggLookup_addOcc_self]
        rw [this, List.append_assoc]
        rfl
      · rw [aggAux, occFrom, if_neg h, ih]
        have : entryD (addOcc acc t pos) tok = entryD acc tok := by
          simp [entryD, aggLookup_addOcc_ne _ _ _ _ (fun he => h he.symm)]
        rw [this]

theorem aggLookup_eq_none_iff (acc : List (String × List Nat)) (tok : String) :
    aggLookup acc tok = none ↔ tok ∉ acc.map Prod.fst := by
  induction acc with
  | nil => simp [aggLookup]
  | cons e rest ih =>
      obtain ⟨t, ps⟩ := e
      by_cases h : t = tok
      · subst h
        simp [aggLookup]
      · have hne : tok ≠ t := fun he => h he.symm
        simp [aggLookup, h, ih, hne]

theorem aggLookup_isSome_addOcc (acc : List (String × List Nat)) (tok : String)
    (pos : Nat) (tok2 : String) :
    (aggLookup (addOcc acc tok pos) tok2).isSome ↔
      (aggLookup acc tok2).isSome ∨ tok2 = tok := by
  by_cases h : tok2 = tok
  · subst h
    simp [aggLookup_addOcc_self]
  · simp [aggLookup_addOcc_ne _ _ _ _ h, h]

theorem aggLookup_isSome_aggAux (src : List String) : ∀ (pos : Nat)
    (acc : List (String × List Nat)) (tok : String),
    (aggLookup (aggAux src pos acc) tok).isSome ↔
      (aggLookup acc tok).isSome ∨ tok ∈ src := by
  induction src with
  | nil => intro pos acc tok; simp [aggAux]
  | cons t rest ih =>
      intro pos acc tok
      rw [aggAux, ih, aggLookup_isSome_addOcc]
      constructor
      · rintro ((h | h) | h)
        · exact Or.inl h
        · exact Or.inr (by simp [h])
        · exact Or.inr (by simp [h])
      · rintro (h | h)
        · exact Or.inl (Or.inl h)
        · rcases List.mem_cons.mp h with h | h
          · exact Or.inl (Or.inr h)
          · exact Or.inr h

theorem keys_addOcc (acc : List (String × List Nat)) (tok : String) (pos : Nat) :
    (addOcc acc tok pos).map Prod.fst =
      if tok ∈ acc.map Prod.fst then acc.map Prod.fst
      else acc.map Prod.fst ++ [tok] := by
  induction acc with
  | nil => simp [addOcc]
  | cons e rest ih =>
      obtain ⟨t, ps⟩ := e
      by_cases h : t = tok
      · subst h
        simp [addOcc]
      · have hne : tok ≠ t := fun he => h he.symm
        by_cases h2 : tok ∈ rest.map Prod.fst
        · simp [addOcc, h, ih, h2, hne]
        · simp [addOcc, h, ih, h2, hne]

theorem keys_nodup_addOcc (acc : List (String × List Nat)) (tok : String)
    (pos : Nat) (hn : (acc.map Prod.fst).Nodup) :
    ((addOcc acc tok pos).map Prod.fst).Nodup := by
  rw [keys_addOcc]
  by_cases h : tok ∈ acc.map Prod.fst
  · simpa [h]
  · rw [if_neg h, List.nodup_append]
    exact ⟨hn, List.nodup_singleton _,
      fun a ha hb => h (List.mem_singleton.mp hb ▸ ha)⟩

theorem agg_keys_nodup_aux (src : List String) : ∀ (pos : Nat)
    (acc : List (String × List Nat)), (acc.map Prod.fst).Nodup →
    ((aggAux src pos acc).map Prod.fst).Nodup := by
  induction src with
  | nil => intro pos acc h; simpa [aggAux]
  | cons t rest ih =>
      intro pos acc h
      exact ih _ _ (keys_nodup_addOcc _ _ _ h)

theorem agg_keys_nodup (src : List String) :
    ((aggregated_primitive_tokens src).map Prod.fst).Nodup :=
  agg_keys_nodup_aux src 0 [] (by simp)

theorem aggLookup_eq_some_of_mem {tok : String} {ps : List Nat} :
    ∀ (agg : List (String × List Nat)), (agg.map Prod.fst).Nodup →
      (tok, ps) ∈ agg → aggLookup agg tok = some ps
  | [], _, hm => by simp at hm
  | (t, qs) :: rest, hn, hm => by
      rcases List.mem_cons.mp hm with h | h
      · rw [Prod.mk.injEq] at h
        obtain ⟨h1, h2⟩ := h
        subst h1
        subst h2
        simp [aggLookup]
      · have hn2 : (t :: rest.map Prod.fst).Nodup := by
          simpa only [List.map_cons] using hn
        have hcons := List.nodup_cons.mp hn2
        have ht : t ≠ tok := by
          intro he
          subst he
          exact hcons.1 (List.mem_map.mpr ⟨(t, ps), h, rfl⟩)
        simp only [aggLookup, if_neg ht]
        exact aggLookup_eq_some_of_mem rest hcons.2 h

theorem mem_of_aggLookup_eq_some {tok : String} {ps : List Nat} :
    ∀ (agg : List (String × List Nat)), aggLookup agg tok = some ps →
      (tok, ps) ∈ agg
  | [], h => by simp [aggLookup] at h
  | (t, qs) :: rest, h => by
      by_cases ht : t = tok
      · subst ht
        simp [aggLookup] at h
        subst h
        exact List.mem_cons_self _ _
      · simp only [aggLookup, if_neg ht] at h
        exact List.mem_cons_of_mem _ (mem_of_aggLookup_eq_some rest h)

/-- The map `aggregated_primitive_tokens` holds exactly the tokens of the utterance,
each to its full list of occurrence positions. -/
theorem mem_agg_iff (src : List String) (tok : String) (ps : List Nat) :
    (tok, ps) ∈ aggregated_primitive_tokens src ↔
      tok ∈ src ∧ ps = occurrences src tok := by
  constructor
  · intro h
    have hlk := aggLookup_eq_some_of_mem _ (agg_keys_nodup src) h
    rw [aggregated_primitive_tokens] at hlk
    have hsome : (aggLookup (aggAux src 0 []) tok).isSome := by
      simp [hlk]
    have hmem : tok ∈ src := by
      have := (aggLookup_isSome_aggAux src 0 [] tok).mp hsome
      simpa [aggLookup] using this
    have hent := entryD_aggAux src 0 [] tok
    rw [entryD, hlk] at hent
    refine ⟨hmem, ?_⟩
    simpa [entryD, aggLookup, occurrences] using hent
  · rintro ⟨hmem, rfl⟩
    have hsome : (aggLookup (aggregated_primitive_tokens src) tok).isSome := by
      rw [aggregated_primitive_tokens, aggLookup_isSome_aggAux]
      simp [aggLookup, hmem]
    obtain ⟨ps2, hps2⟩ := Option.isSome_iff_exists.mp hsome
    rw [aggregated_primitive_tokens] at hps2
    have hent := entryD_aggAux src 0 [] tok
    rw [entryD, hps2] at hent
    have : ps2 = occurrences src tok := by
      simpa [entryD, aggLookup, occurrences] using hent
    subst this
    exact mem_of_aggLookup_eq_some _ hps2

/-- The utterance tokens are exactly the keys of the map. -/
theorem aggLookup_agg_isSome_iff (src : List String) (tok : String) :
    (aggLookup (aggregated_primitive_tokens src) tok).isSome ↔ tok ∈ src := by
  rw [aggregated_primitive_tokens, aggLookup_isSome_aggAux]
  simp [aggLookup]

/-! ### Properties of the copy-aggregation pass -/

theorem copy_add_cons {σ : Type} (env : Env σ) (pr : StepProbs) (hyp_id : Nat)
    (e : String × List Nat) (rest : List (String × List Nat)) (slot : Nat) :
    copy_add env pr hyp_id (e :: rest) slot =
      copy_add_entry env pr hyp_id e slot + copy_add env pr hyp_id rest slot := by
  simp [copy_add]

theorem copy_pass_foldl_fst {σ : Type} (env : Env σ) (pr : StepProbs)
    (hyp_id : Nat) : ∀ (agg : List (String × List Nat))
    (acc : (Nat → Rat) × List UnkEntry) (slot : Nat),
    (agg.foldl (copy_pass_step env pr hyp_id) acc).1 slot =
      acc.1 slot + copy_add env pr hyp_id agg slot := by
  intro agg
  induction agg with
  | nil => intro acc slot; simp [copy_add]
  | cons e rest ih =>
      intro acc slot
      rw [List.foldl_cons, ih, copy_add_cons]
      rcases he : env.vocab.toId e.1 with _ | j
      · simp [copy_pass_step, he, copy_add_entry]
      · by_cases hs : slot = j
        · subst hs
          simp only [copy_pass_step, he, copy_add_entry, if_true, eq_self_iff_true]
          ring
        · simp only [copy_pass_step, he, copy_add_entry, if_neg hs]
          ring

/-- The copy pass adds exactly the per-slot gated copy mass to the row. -/
theorem copy_pass_fst {σ : Type} (env : Env σ) (pr : StepProbs)
    (agg : List (String × List Nat)) (hyp_id : Nat) (row : Nat → Rat) (slot : Nat) :
    (copy_pass env pr agg hyp_id row).1 slot = row slot + copy_add env pr hyp_id agg slot :=
  copy_pass_foldl_fst env pr hyp_id agg (row, []) slot

theorem copy_pass_foldl_snd {σ : Type} (env : Env σ) (pr : StepProbs)
    (hyp_id : Nat) : ∀ (agg : List (String × List Nat))
    (acc : (Nat → Rat) × List UnkEntry),
    (agg.foldl (copy_pass_step env pr hyp_id) acc).2 =
      acc.2 ++ unk_info_of env pr hyp_id agg := by
  intro agg
  induction agg with
  | nil => intro acc; simp [unk_info_of]
  | cons e rest ih =>
      intro acc
      rw [List.foldl_cons, ih]
      rcases he : env.vocab.toId e.1 with _ | j
      · simp [copy_pass_step, he, unk_info_of]
      · simp [copy_pass_step, he, unk_info_of]

/-- The unknown-copy candidates are exactly the out-of-vocabulary utterance
tokens with their gated copy mass. -/
theorem copy_pass_snd {σ : Type} (env : Env σ) (pr : StepProbs)
    (agg : List (String × List Nat)) (hyp_id : Nat) (row : Nat → Rat) :
    (copy_pass env pr agg hyp_id row).2 = unk_info_of env pr hyp_id agg := by
  rw [copy_pass, copy_pass_foldl_snd]
  rfl

/-! ### Properties of `np_argmax` -/

theorem np_argmax_cons_cons (v w : Rat) (rest : List Rat) :
    np_argmax (v :: w :: rest) =
      if v < (w :: rest).getD (np_argmax (w :: rest)) 0
      then np_argmax (w :: rest) + 1 else 0 := rfl

theorem np_argmax_lt : ∀ (l : List Rat), l ≠ [] → np_argmax l < l.length
  | [], h => absurd rfl h
  | [_], _ => by simp [np_argmax]
  | v :: w :: rest, _ => by
      rw [np_argmax_cons_cons]
      by_cases h : v < (w :: rest).getD (np_argmax (w :: rest)) 0
      · rw [if_pos h]
        have := np_argmax_lt (w :: rest) (fun hh => List.noConfusion hh)
        simpa using this
      · rw [if_neg h]
        simp

theorem np_argmax_is_max : ∀ (l : List Rat) (x : Rat), x ∈ l →
    x ≤ l.getD (np_argmax l) 0
  | [], _, hx => by simp at hx
  | [v], x, hx => by
      simp only [List.mem_singleton] at hx
      simp [np_argmax, hx]
  | v :: w :: rest, x, hx => by
      rw [np_argmax_cons_cons]
      by_cases h : v < (w :: rest).getD (np_argmax (w :: rest)) 0
      · rw [if_pos h, List.getD_cons_succ]
        rcases List.mem_cons.mp hx with hx | hx
        · exact hx ▸ h.le
        · exact np_argmax_is_max (w :: rest) x hx
      · rw [if_neg h, List.getD_cons_zero]
        rcases List.mem_cons.mp hx with hx | hx
        · exact hx.le
        · exact le_trans (np_argmax_is_max (w :: rest) x hx) (not_lt.mp h)

/-! ### Properties of the per-hypothesis GenToken scan -/

theorem gen_scan_step_other {σ : Type} (env : Env σ) (pr : StepProbs)
    (agg : List (String × List Nat)) (hyp_id : Nat) (acc : GenScan)
    (ty : ActType) (h : ty ≠ ActType.genToken) :
    gen_scan_step env pr agg hyp_id acc ty = acc := by
  cases ty with
  | applyRule => rfl
  | reduce => rfl
  | genToken => exact absurd rfl h

theorem foldl_gen_scan_no_gen {σ : Type} (env : Env σ) (pr : StepProbs)
    (agg : List (String × List Nat)) (hyp_id : Nat) :
    ∀ (tys : List ActType) (acc : GenScan),
      tys.count ActType.genToken = 0 →
      tys.foldl (gen_scan_step env pr agg hyp_id) acc = acc := by
  intro tys
  induction tys with
  | nil => intro acc _; rfl
  | cons ty rest ih =>
      intro acc hc
      rw [List.count_cons] at hc
      have hne : ty ≠ ActType.genToken := by
        intro he
        simp [he] at hc
      have hc0 : rest.count ActType.genToken = 0 := by
        omega
      rw [List.foldl_cons, gen_scan_step_other _ _ _ _ _ _ hne, ih acc hc0]

/-- With exactly one legal GenToken continuation type, the scan of a
hypothesis is the single GenToken iteration from the base row. -/
theorem gen_scan_of_count_one {σ : Type} (env : Env σ) (pr : StepProbs)
    (agg : List (String × List Nat)) (hyp_id : Nat) (s : σ)
    (h : (env.get_valid_continuation_types s).count ActType.genToken = 1) :
    gen_scan env pr agg hyp_id s =
      gen_scan_step env pr agg hyp_id
        ⟨base_primitive_prob env pr hyp_id, [], []⟩ ActType.genToken := by
  have hmem : ActType.genToken ∈ env.get_valid_continuation_types s := by
    rw [← List.count_pos_iff, h]
    omega
  obtain ⟨l1, l2, hsplit⟩ := List.append_of_mem hmem
  rw [gen_scan, hsplit]
  rw [hsplit, List.count_append, List.count_cons] at h
  simp at h
  have h1 : l1.count ActType.genToken = 0 := by omega
  have h2 : l2.count ActType.genToken = 0 := by omega
  rw [List.foldl_append, foldl_gen_scan_no_gen env pr agg hyp_id l1 _ h1,
    List.foldl_cons, foldl_gen_scan_no_gen env pr agg hyp_id l2 _ h2]

/-- With no legal GenToken continuation type, the scan is the untouched base
row with no ids and no unknown-copy tokens. -/
theorem gen_scan_of_count_zero {σ : Type} (env : Env σ) (pr : StepProbs)
    (agg : List (String × List Nat)) (hyp_id : Nat) (s : σ)
    (h : (env.get_valid_continuation_types s).count ActType.genToken = 0) :
    gen_scan env pr agg hyp_id s =
      ⟨base_primitive_prob env pr hyp_id, [], []⟩ :=
  foldl_gen_scan_no_gen env pr agg hyp_id _ _ h

/-! ### Properties of the modelled `torch.topk` selection -/

theorem top_new_hyp_pos_length (scores : List Rat) (k : Nat) :
    (top_new_hyp_pos scores k).length = min k scores.length := by
  simp [top_new_hyp_pos]

theorem mem_top_lt (scores : List Rat) (k : Nat) {i : Nat}
    (h : i ∈ top_new_hyp_pos scores k) : i < scores.length := by
  have h2 := List.mem_of_mem_take h
  rw [List.mem_insertionSort] at h2
  exact List.mem_range.mp h2

theorem top_new_hyp_pos_nodup (scores : List Rat) (k : Nat) :
    (top_new_hyp_pos scores k).Nodup := by
  have hperm := List.perm_insertionSort (candRank scores) (List.range scores.length)
  have hnd : ((List.range scores.length).insertionSort (candRank scores)).Nodup :=
    hperm.nodup_iff.mpr (List.nodup_range _)
  exact hnd.sublist (List.take_sublist _ _)

/-- Any selected position beats any unselected position: strictly larger
score, or equal score and lower flat position. -/
theorem top_selected_beats_unselected (scores : List Rat) (k : Nat)
    {i j : Nat} (hi : i ∈ top_new_hyp_pos scores k) (hj : j < scores.length)
    (hjn : j ∉ top_new_hyp_pos scores k) :
    scores.getD j 0 < scores.getD i 0 ∨
      (scores.getD j 0 = scores.getD i 0 ∧ i < j) := by
  have hsort : ((List.range scores.length).insertionSort (candRank scores)).Sorted
      (candRank scores) := List.sorted_insertionSort _ _
  have hperm := List.perm_insertionSort (candRank scores) (List.range scores.length)
  have hnd : ((List.range scores.length).insertionSort (candRank scores)).Nodup :=
    hperm.nodup_iff.mpr (List.nodup_range _)
  have hjl : j ∈ (List.range scores.length).insertionSort (candRank scores) :=
    hperm.mem_iff.mpr (List.mem_range.mpr hj)
  rw [← List.take_append_drop k ((List.range scores.length).insertionSort (candRank scores)),
    List.mem_append] at hjl
  have hjd : j ∈ ((List.range scores.length).insertionSort (candRank scores)).drop k := by
    rcases hjl with hjl | hjl
    · exact absurd hjl hjn
    · exact hjl
  have hrel : candRank scores i j := hsort.rel_of_mem_take_of_mem_drop hi hjd
  have hne : i ≠ j := by
    intro he
    subst he
    have := List.nodup_append.mp (by
      rw [List.take_append_drop k ((List.range scores.length).insertionSort (candRank scores))]
      exact hnd)
    exact this.2.2 hi hjd
  rcases hrel with hlt | ⟨heq, hle⟩
  · exact Or.inl hlt
  · exact Or.inr ⟨heq.symm, lt_of_le_of_ne hle hne⟩

/-! ### Shape of the flat candidate list -/

theorem gen_token_new_hyp_scores_length {σ : Type} (env : Env σ) (pr : StepProbs)
    (agg : List (String × List Nat)) (hyps : List (Hyp σ)) (hyp_scores : List Rat) :
    (gen_token_new_hyp_scores env pr agg hyps hyp_scores).length =
      (gentoken_prev_hyp_ids env pr agg hyps).length * env.vocab.size := by
  simp [gen_token_new_hyp_scores]

theorem new_hyp_scores_list_length {σ : Type} (env : Env σ) (pr : StepProbs)
    (src_sent : List String) (hyps : List (Hyp σ)) (hyp_scores : List Rat) :
    (new_hyp_scores_list env pr src_sent hyps hyp_scores).length =
      (applyrule_cands env pr hyps).length +
        (gentoken_prev_hyp_ids env pr (aggregated_primitive_tokens src_sent) hyps).length *
          env.vocab.size := by
  simp [new_hyp_scores_list, gen_token_new_hyp_scores_length]

/-- Flat positions inside the ApplyRule/Reduce block hold exactly the rule
candidates' scores. -/
theorem new_hyp_scores_getD_rule {σ : Type} (env : Env σ) (pr : StepProbs)
    (src_sent : List String) (hyps : List (Hyp σ)) (hyp_scores : List Rat)
    (i : Nat) (hi : i < (applyrule_cands env pr hyps).length) :
    (new_hyp_scores_list env pr src_sent hyps hyp_scores).getD i 0 =
      ((applyrule_cands env pr hyps).getD i ⟨0, 0, 0⟩).new_hyp_score := by
  rw [new_hyp_scores_list, List.getD_append _ _ _ _ (by simpa using hi),
    List.getD_eq_getElem _ _ (by simpa using hi), List.getElem_map,
    List.getD_eq_getElem _ _ hi]

/-- Flat position `|rules| + k * |vocab| + slot` holds the GenToken candidate
of the k-th GenToken hypothesis at that vocabulary slot, scored from the
`hyp_scores` tensor baseline plus the logarithm of the aggregated probability. -/
theorem new_hyp_scores_getD_gen {σ : Type} (env : Env σ) (pr : StepProbs)
    (src_sent : List String) (hyps : List (Hyp σ)) (hyp_scores : List Rat)
    (k slot : Nat)
    (hk : k < (gentoken_prev_hyp_ids env pr (aggregated_primitive_tokens src_sent) hyps).length)
    (hs : slot < env.vocab.size) :
    (new_hyp_scores_list env pr src_sent hyps hyp_scores).getD
        ((applyrule_cands env pr hyps).length + (k * env.vocab.size + slot)) 0 =
      hyp_scores.getD
          ((gentoken_prev_hyp_ids env pr (aggregated_primitive_tokens src_sent) hyps).getD k 0) 0 +
        primitive_log_prob env pr (aggregated_primitive_tokens src_sent) hyps
          ((gentoken_prev_hyp_ids env pr (aggregated_primitive_tokens src_sent) hyps).getD k 0)
          slot := by
  have hlenrule : ((applyrule_cands env pr hyps).map RuleCand.new_hyp_score).length =
      (applyrule_cands env pr hyps).length := by simp
  have hr : k * env.vocab.size + slot <
      (gentoken_prev_hyp_ids env pr (aggregated_primitive_tokens src_sent) hyps).length *
        env.vocab.size := by
    calc k * env.vocab.size + slot < k * env.vocab.size + env.vocab.size := by omega
    _ = (k + 1) * env.vocab.size := by ring
    _ ≤ _ := Nat.mul_le_mul_right _ hk
  rw [new_hyp_scores_list, List.getD_append_right _ _ _ _ (by omega), hlenrule]
  have harith : (applyrule_cands env pr hyps).length + (k * env.vocab.size + slot) -
      (applyrule_cands env pr hyps).length = k * env.vocab.size + slot := by omega
  rw [harith, gen_token_new_hyp_scores,
    List.getD_eq_getElem _ _ (by simpa using hr), List.getElem_map, List.getElem_range]
  have hdiv : (k * env.vocab.size + slot) / env.vocab.size = k := by
    rw [Nat.add_comm, Nat.add_mul_div_right _ _ (by omega : 0 < env.vocab.size),
      Nat.div_eq_of_lt hs]
    omega
  have hmod : (k * env.vocab.size + slot) % env.vocab.size = slot := by
    rw [Nat.add_comm, Nat.add_mul_mod_self_right, Nat.mod_eq_of_lt hs]
  rw [hdiv, hmod]

/-! ### Provenance of the candidates -/

/-- Every ApplyRule/Reduce candidate originates from a live hypothesis and a
continuation declared legal by the transition system, with the score
`hyp.score + apply_rule_log_prob` at the production slot (Reduce at the
sentinel slot `len(grammar)`). -/
theorem applyrule_cands_spec {σ : Type} (env : Env σ) (pr : StepProbs)
    (hyps : List (Hyp σ)) {c : RuleCand} (hc : c ∈ applyrule_cands env pr hyps) :
    ∃ h : Hyp σ, hyps[c.prev_hyp_id]? = some h ∧
      ((ActType.applyRule ∈ env.get_valid_continuation_types h.state ∧
        c.prod_id ∈ env.get_valid_continuating_productions h.state ∧
        c.new_hyp_score = h.score + pr.apply_rule_log_prob c.prev_hyp_id c.prod_id) ∨
       (ActType.reduce ∈ env.get_valid_continuation_types h.state ∧
        c.prod_id = env.grammarSize ∧
        c.new_hyp_score = h.score + pr.apply_rule_log_prob c.prev_hyp_id env.grammarSize)) := by
  rw [applyrule_cands] at hc
  obtain ⟨p, hp, hc2⟩ := List.mem_flatMap.mp hc
  obtain ⟨i, h⟩ := p
  have hip : hyps[i]? = some h := List.mk_mem_enum_iff_getElem?.mp hp
  rw [applyrule_cands_of_hyp] at hc2
  obtain ⟨ty, hty, hc3⟩ := List.mem_flatMap.mp hc2
  cases ty with
  | applyRule =>
      obtain ⟨pid, hpid, heq⟩ := List.mem_map.mp hc3
      subst heq
      exact ⟨h, hip, Or.inl ⟨hty, hpid, rfl⟩⟩
  | reduce =>
      rw [List.mem_singleton] at hc3
      subst hc3
      exact ⟨h, hip, Or.inr ⟨hty, rfl, rfl⟩⟩
  | genToken => simp at hc3

theorem gen_scan_step_ids {σ : Type} (env : Env σ) (pr : StepProbs)
    (agg : List (String × List Nat)) (hyp_id : Nat) (acc : GenScan) :
    (gen_scan_step env pr agg hyp_id acc ActType.genToken).ids = acc.ids ++ [hyp_id] := by
  rw [gen_scan_step]
  by_cases h : env.no_copy
  · simp [h]
  · simp only [if_neg h]
    by_cases h2 : (copy_pass env pr agg hyp_id acc.row).2.isEmpty
    · simp [h2]
    · simp [h2]

theorem foldl_gen_scan_ids {σ : Type} (env : Env σ) (pr : StepProbs)
    (agg : List (String × List Nat)) (hyp_id : Nat) :
    ∀ (tys : List ActType) (acc : GenScan) (x : Nat),
      x ∈ (tys.foldl (gen_scan_step env pr agg hyp_id) acc).ids →
      x ∈ acc.ids ∨ (x = hyp_id ∧ ActType.genToken ∈ tys) := by
  intro tys
  induction tys with
  | nil => intro acc x hx; exact Or.inl hx
  | cons ty rest ih =>
      intro acc x hx
      rw [List.foldl_cons] at hx
      rcases ih _ x hx with hx2 | ⟨hx2, hx3⟩
      · cases hty : ty with
        | genToken =>
            subst hty
            rw [gen_scan_step_ids] at hx2
            rcases List.mem_append.mp hx2 with hx3 | hx3
            · exact Or.inl hx3
            · rw [List.mem_singleton] at hx3
              exact Or.inr ⟨hx3, List.mem_cons_self _ _⟩
        | applyRule =>
            subst hty
            rw [gen_scan_step_other env pr agg hyp_id acc _ (by simp)] at hx2
            exact Or.inl hx2
        | reduce =>
            subst hty
            rw [gen_scan_step_other env pr agg hyp_id acc _ (by simp)] at hx2
            exact Or.inl hx2
      · exact Or.inr ⟨hx2, List.mem_cons_of_mem _ hx3⟩

/-- Every entry of `gentoken_prev_hyp_ids` is the index of a live hypothesis
whose legal continuation types include GenToken. -/
theorem gentoken_prev_hyp_ids_spec {σ : Type} (env : Env σ) (pr : StepProbs)
    (agg : List (String × List Nat)) (hyps : List (Hyp σ)) {x : Nat}
    (hx : x ∈ gentoken_prev_hyp_ids env pr agg hyps) :
    ∃ h : Hyp σ, hyps[x]? = some h ∧
      ActType.genToken ∈ env.get_valid_continuation_types h.state := by
  rw [gentoken_prev_hyp_ids] at hx
  obtain ⟨l, hl, hx2⟩ := List.mem_flatten.mp hx
  obtain ⟨sc, hsc, rfl⟩ := List.mem_map.mp hl
  rw [gen_scan_list] at hsc
  obtain ⟨p, hp, rfl⟩ := List.mem_map.mp hsc
  obtain ⟨i, h⟩ := p
  have hip : hyps[i]? = some h := List.mk_mem_enum_iff_getElem?.mp hp
  rcases foldl_gen_scan_ids env pr agg i _ _ x hx2 with hx3 | ⟨hx3, hx4⟩
  · simp at hx3
  · subst hx3
    exact ⟨h, hip, hx4⟩

/-- Claim C1.  At every beam-search step of `parse` the flat candidate list is
the concatenation of all ApplyRule/Reduce candidates (over all live
hypotheses) followed by all vocabulary-slot GenToken candidates — positions
below the rule-block length materialize to ApplyRule or Reduce actions and
the remaining positions to GenToken actions — exactly
`min(number of candidates, beam_size - completed_so_far)` positions are
selected, and selection is top-scoring with ties broken by the flat ordering:
any selected position has a strictly larger score than any unselected one, or
an equal score and a lower flat position (so ApplyRule/Reduce candidates win
ties against GenToken candidates, and among GenToken candidates the lower
flattened index wins). -/
theorem parse_candidate_order_and_selection {σ : Type} (env : Env σ)
    (pr : StepProbs) (src_sent : List String) (hyps : List (Hyp σ))
    (hyp_scores : List Rat) (beam_size completedCount : Nat) :
    new_hyp_scores_list env pr src_sent hyps hyp_scores =
      (applyrule_cands env pr hyps).map RuleCand.new_hyp_score ++
        gen_token_new_hyp_scores env pr (aggregated_primitive_tokens src_sent) hyps
          hyp_scores ∧
    (∀ i, i < (applyrule_cands env pr hyps).length →
      (∃ p, (materialize_action env (aggregated_primitive_tokens src_sent)
          (applyrule_cands env pr hyps)
          (gentoken_prev_hyp_ids env pr (aggregated_primitive_tokens src_sent) hyps)
          (gentoken_new_hyp_unks env pr (aggregated_primitive_tokens src_sent) hyps)
          i).action = Action.applyRule p) ∨
        (materialize_action env (aggregated_primitive_tokens src_sent)
          (applyrule_cands env pr hyps)
          (gentoken_prev_hyp_ids env pr (aggregated_primitive_tokens src_sent) hyps)
          (gentoken_new_hyp_unks env pr (aggregated_primitive_tokens src_sent) hyps)
          i).action = Action.reduce) ∧
    (∀ i, (applyrule_cands env pr hyps).length ≤ i →
      ∃ tok, (materialize_action env (aggregated_primitive_tokens src_sent)
          (applyrule_cands env pr hyps)
          (gentoken_prev_hyp_ids env pr (aggregated_primitive_tokens src_sent) hyps)
          (gentoken_new_hyp_unks env pr (aggregated_primitive_tokens src_sent) hyps)
          i).action = Action.genToken tok) ∧
    (selected_positions env pr src_sent hyps hyp_scores beam_size completedCount).length =
      min (new_hyp_scores_list env pr src_sent hyps hyp_scores).length
        (beam_size - completedCount) ∧
    (∀ i ∈ selected_positions env pr src_sent hyps hyp_scores beam_size completedCount,
      i < (new_hyp_scores_list env pr src_sent hyps hyp_scores).length) ∧
    (∀ i ∈ selected_positions env pr src_sent hyps hyp_scores beam_size completedCount,
      ∀ j, j < (new_hyp_scores_list env pr src_sent hyps hyp_scores).length →
        j ∉ selected_positions env pr src_sent hyps hyp_scores beam_size completedCount →
        (new_hyp_scores_list env pr src_sent hyps hyp_scores).getD j 0 <
            (new_hyp_scores_list env pr src_sent hyps hyp_scores).getD i 0 ∨
          ((new_hyp_scores_list env pr src_sent hyps hyp_scores).getD j 0 =
              (new_hyp_scores_list env pr src_sent hyps hyp_scores).getD i 0 ∧ i < j)) := by
  refine ⟨rfl, ?_, ?_, ?_, ?_, ?_⟩
  · intro i hi
    have hstep : (materialize_action env (aggregated_primitive_tokens src_sent)
        (applyrule_cands env pr hyps)
        (gentoken_prev_hyp_ids env pr (aggregated_primitive_tokens src_sent) hyps)
        (gentoken_new_hyp_unks env pr (aggregated_primitive_tokens src_sent) hyps)
        i).action =
        (if ((applyrule_cands env pr hyps).getD i ⟨0, 0, 0⟩).prod_id < env.grammarSize
         then Action.applyRule ((applyrule_cands env pr hyps).getD i ⟨0, 0, 0⟩).prod_id
         else Action.reduce) := by
      rw [materialize_action, if_pos hi]
    rw [hstep]
    by_cases hp : ((applyrule_cands env pr hyps).getD i ⟨0, 0, 0⟩).prod_id < env.grammarSize
    · exact Or.inl ⟨_, if_pos hp⟩
    · exact Or.inr (if_neg hp)
  · intro i hi
    rw [materialize_action, if_neg (by omega)]
    exact ⟨_, rfl⟩
  · rw [selected_positions, top_new_hyp_pos_length]
    have := Nat.min_le_left
      (new_hyp_scores_list env pr src_sent hyps hyp_scores).length
      (beam_size - completedCount)
    omega
  · intro i hi
    exact mem_top_lt _ _ hi
  · intro i hi j hj hjn
    exact top_selected_beats_unselected _ _ hi hj hjn



/-! ### Grammar legality of the applied actions -/

/-- Claim C5.  Every candidate selected at a beam-search step — and hence every
action handed to `clone_and_apply_action_info` by the application loop, which
by definition of `apply_selected_step` applies exactly
`materialize_action ... i` for each selected position `i` — is legal for its
originating hypothesis: an ApplyRule action only with a production returned by
`get_valid_continuating_productions`, and a Reduce or GenToken action only
when its action type is in `get_valid_continuation_types` for that
hypothesis.  The hypotheses state that the vocabulary is non-empty and that
production ids lie below `len(grammar)`, both fixed facts of the real grammar
and vocabulary. -/
theorem parse_actions_grammar_legal {σ : Type} (env : Env σ) (pr : StepProbs)
    (src_sent : List String) (hyps : List (Hyp σ)) (hyp_scores : List Rat)
    (beam_size completedCount : Nat)
    (hV : 0 < env.vocab.size)
    (hprods : ∀ s : σ, ∀ p ∈ env.get_valid_continuating_productions s,
      p < env.grammarSize) :
    ∀ i ∈ selected_positions env pr src_sent hyps hyp_scores beam_size completedCount,
      ∃ h : Hyp σ,
        hyps[(materialize_action env (aggregated_primitive_tokens src_sent)
            (applyrule_cands env pr hyps)
            (gentoken_prev_hyp_ids env pr (aggregated_primitive_tokens src_sent) hyps)
            (gentoken_new_hyp_unks env pr (aggregated_primitive_tokens src_sent) hyps)
            i).prev_hyp_id]? = some h ∧
        (match (materialize_action env (aggregated_primitive_tokens src_sent)
            (applyrule_cands env pr hyps)
            (gentoken_prev_hyp_ids env pr (aggregated_primitive_tokens src_sent) hyps)
            (gentoken_new_hyp_unks env pr (aggregated_primitive_tokens src_sent) hyps)
            i).action with
         | Action.applyRule p =>
             ActType.applyRule ∈ env.get_valid_continuation_types h.state ∧
               p ∈ env.get_valid_continuating_productions h.state
         | Action.reduce => ActType.reduce ∈ env.get_valid_continuation_types h.state
         | Action.genToken _ =>
             ActType.genToken ∈ env.get_valid_continuation_types h.state) := by
  intro i hisel
  have hin : i < (new_hyp_scores_list env pr src_sent hyps hyp_scores).length :=
    mem_top_lt _ _ hisel
  rw [new_hyp_scores_list_length] at hin
  by_cases hi : i < (applyrule_cands env pr hyps).length
  · have hc : (applyrule_cands env pr hyps).getD i ⟨0, 0, 0⟩ ∈ applyrule_cands env pr hyps := by
      rw [List.getD_eq_getElem _ _ hi]
      exact List.getElem_mem hi
    obtain ⟨h, hh, hleg⟩ := applyrule_cands_spec env pr hyps hc
    refine ⟨h, ?_, ?_⟩
    · have : (materialize_action env (aggregated_primitive_tokens src_sent)
          (applyrule_cands env pr hyps)
          (gentoken_prev_hyp_ids env pr (aggregated_primitive_tokens src_sent) hyps)
          (gentoken_new_hyp_unks env pr (aggregated_primitive_tokens src_sent) hyps)
          i).prev_hyp_id =
          ((applyrule_cands env pr hyps).getD i ⟨0, 0, 0⟩).prev_hyp_id := by
        rw [materialize_action, if_pos hi]
      rw [this]
      exact hh
    · have hact : (materialize_action env (aggregated_primitive_tokens src_sent)
          (applyrule_cands env pr hyps)
          (gentoken_prev_hyp_ids env pr (aggregated_primitive_tokens src_sent) hyps)
          (gentoken_new_hyp_unks env pr (aggregated_primitive_tokens src_sent) hyps)
          i).action =
          (if ((applyrule_cands env pr hyps).getD i ⟨0, 0, 0⟩).prod_id < env.grammarSize
           then Action.applyRule ((applyrule_cands env pr hyps).getD i ⟨0, 0, 0⟩).prod_id
           else Action.reduce) := by
        rw [materialize_action, if_pos hi]
      rw [hact]
      by_cases hp : ((applyrule_cands env pr hyps).getD i ⟨0, 0, 0⟩).prod_id < env.grammarSize
      · rw [if_pos hp]
        rcases hleg with ⟨hty, hpid, _⟩ | ⟨_, hps, _⟩
        · exact ⟨hty, hpid⟩
        · omega
      · rw [if_neg hp]
        rcases hleg with ⟨_, hpid, _⟩ | ⟨hty, _, _⟩
        · exact absurd (hprods h.state _ hpid) hp
        · exact hty
  · have hk : (i - (applyrule_cands env pr hyps).length) / env.vocab.size <
        (gentoken_prev_hyp_ids env pr (aggregated_primitive_tokens src_sent) hyps).length := by
      rw [Nat.div_lt_iff_lt_mul hV]
      omega
    have hmemid : (gentoken_prev_hyp_ids env pr (aggregated_primitive_tokens src_sent)
        hyps).getD ((i - (applyrule_cands env pr hyps).length) / env.vocab.size) 0 ∈
        gentoken_prev_hyp_ids env pr (aggregated_primitive_tokens src_sent) hyps := by
      rw [List.getD_eq_getElem _ _ hk]
      exact List.getElem_mem hk
    obtain ⟨h, hh, hty⟩ :=
      gentoken_prev_hyp_ids_spec env pr (aggregated_primitive_tokens src_sent) hyps hmemid
    refine ⟨h, ?_, ?_⟩
    · have : (materialize_action env (aggregated_primitive_tokens src_sent)
          (applyrule_cands env pr hyps)
          (gentoken_prev_hyp_ids env pr (aggregated_primitive_tokens src_sent) hyps)
          (gentoken_new_hyp_unks env pr (aggregated_primitive_tokens src_sent) hyps)
          i).prev_hyp_id =
          (gentoken_prev_hyp_ids env pr (aggregated_primitive_tokens src_sent) hyps).getD
            ((i - (applyrule_cands env pr hyps).length) / env.vocab.size) 0 := by
        rw [materialize_action, if_neg hi]
      rw [this]
      exact hh
    · have hact : ∃ tok, (materialize_action env (aggregated_primitive_tokens src_sent)
          (applyrule_cands env pr hyps)
          (gentoken_prev_hyp_ids env pr (aggregated_primitive_tokens src_sent) hyps)
          (gentoken_new_hyp_unks env pr (aggregated_primitive_tokens src_sent) hyps)
          i).action = Action.genToken tok := by
        rw [materialize_action, if_neg hi]
        exact ⟨_, rfl⟩
      obtain ⟨tok, htok⟩ := hact
      rw [htok]
      exact hty

/-! ### Counting the outcome of one step -/

theorem apply_selected_foldl_counts {σ : Type} (env : Env σ) (hyps : List (Hyp σ))
    (agg : List (String × List Nat)) (rc : List RuleCand) (gn_ids : List Nat)
    (gn_unks : List String) (scores : List Rat) :
    ∀ (sel : List Nat) (acc : StepOut σ),
      (sel.foldl (apply_selected_step env hyps agg rc gn_ids gn_unks scores)
          acc).new_hypotheses.length +
        (sel.foldl (apply_selected_step env hyps agg rc gn_ids gn_unks scores)
          acc).new_completed.length ≤
      acc.new_hypotheses.length + acc.new_completed.length + sel.length := by
  intro sel
  induction sel with
  | nil => intro acc; simp
  | cons pos rest ih =>
      intro acc
      rw [List.foldl_cons]
      refine le_trans (ih _) ?_
      rw [apply_selected_step]
      rcases hm : hyps[(materialize_action env agg rc gn_ids gn_unks pos).prev_hyp_id]? with
        _ | prev_hyp
      · simp [hm]
      · simp only [hm]
        by_cases hc : env.completed (env.clone_and_apply_action prev_hyp.state
          (materialize_action env agg rc gn_ids gn_unks pos).action)
        · simp [hc, List.length_cons]
          omega
        · simp [hc, List.length_cons]
          omega

theorem apply_selected_foldl_live_len {σ : Type} (env : Env σ) (hyps : List (Hyp σ))
    (agg : List (String × List Nat)) (rc : List RuleCand) (gn_ids : List Nat)
    (gn_unks : List String) (scores : List Rat) :
    ∀ (sel : List Nat) (acc : StepOut σ),
      acc.live_hyp_ids.length = acc.new_hypotheses.length →
      (sel.foldl (apply_selected_step env hyps agg rc gn_ids gn_unks scores)
          acc).live_hyp_ids.length =
        (sel.foldl (apply_selected_step env hyps agg rc gn_ids gn_unks scores)
          acc).new_hypotheses.length := by
  intro sel
  induction sel with
  | nil => intro acc h; simpa
  | cons pos rest ih =>
      intro acc h
      rw [List.foldl_cons]
      refine ih _ ?_
      rw [apply_selected_step]
      rcases hm : hyps[(materialize_action env agg rc gn_ids gn_unks pos).prev_hyp_id]? with
        _ | prev_hyp
      · simpa [hm]
      · simp only [hm]
        by_cases hc : env.completed (env.clone_and_apply_action prev_hyp.state
          (materialize_action env agg rc gn_ids gn_unks pos).action)
        · simpa [hc]
        · simp [hc, h]

theorem apply_selected_foldl_incomplete {σ : Type} (env : Env σ) (hyps : List (Hyp σ))
    (agg : List (String × List Nat)) (rc : List RuleCand) (gn_ids : List Nat)
    (gn_unks : List String) (scores : List Rat) :
    ∀ (sel : List Nat) (acc : StepOut σ),
      (∀ h ∈ acc.new_hypotheses, env.completed h.state = false) →
      ∀ h ∈ (sel.foldl (apply_selected_step env hyps agg rc gn_ids gn_unks scores)
          acc).new_hypotheses, env.completed h.state = false := by
  intro sel
  induction sel with
  | nil => intro acc hacc h hh; exact hacc h hh
  | cons pos rest ih =>
      intro acc hacc h hh
      rw [List.foldl_cons] at hh
      refine ih _ ?_ h hh
      intro h2 hh2
      rw [apply_selected_step] at hh2
      rcases hm : hyps[(materialize_action env agg rc gn_ids gn_unks pos).prev_hyp_id]? with
        _ | prev_hyp
      · rw [hm] at hh2
        exact hacc h2 hh2
      · rw [hm] at hh2
        by_cases hc : env.completed (env.clone_and_apply_action prev_hyp.state
          (materialize_action env agg rc gn_ids gn_unks pos).action)
        · simp only [if_pos hc] at hh2
          exact hacc h2 hh2
        · simp only [if_neg hc] at hh2
          rcases List.mem_append.mp hh2 with hh3 | hh3
          · exact hacc h2 hh3
          · rw [List.mem_singleton] at hh3
            subst hh3
            exact Bool.eq_false_iff.mpr hc

/-- Claim C7.  At the end of every beam-search step (`completed_so_far` below the
beam size, as the loop guard guarantees), the number of surviving live
hypotheses plus the total number of completed hypotheses is at most the beam
size, and it is at least 1 unless early termination fired, i.e. unless no
live hypothesis survived the step. -/
theorem parse_beam_size_invariant {σ : Type} (env : Env σ) (pr : StepProbs)
    (src_sent : List String) (hyps : List (Hyp σ)) (hyp_scores : List Rat)
    (beam_size completedCount : Nat) (hc : completedCount < beam_size) :
    (beam_step env pr src_sent hyps hyp_scores beam_size
        completedCount).out.new_hypotheses.length +
      (completedCount + (beam_step env pr src_sent hyps hyp_scores beam_size
        completedCount).out.new_completed.length) ≤ beam_size ∧
    ((beam_step env pr src_sent hyps hyp_scores beam_size
        completedCount).out.live_hyp_ids ≠ [] →
      1 ≤ (beam_step env pr src_sent hyps hyp_scores beam_size
          completedCount).out.new_hypotheses.length +
        (completedCount + (beam_step env pr src_sent hyps hyp_scores beam_size
          completedCount).out.new_completed.length)) := by
  have hcount := apply_selected_foldl_counts env hyps
    (aggregated_primitive_tokens src_sent) (applyrule_cands env pr hyps)
    (gentoken_prev_hyp_ids env pr (aggregated_primitive_tokens src_sent) hyps)
    (gentoken_new_hyp_unks env pr (aggregated_primitive_tokens src_sent) hyps)
    (new_hyp_scores_list env pr src_sent hyps hyp_scores)
    (top_new_hyp_pos (new_hyp_scores_list env pr src_sent hyps hyp_scores)
      (min (new_hyp_scores_list env pr src_sent hyps hyp_scores).length
        (beam_size - completedCount)))
    ⟨[], [], []⟩
  have hlen := top_new_hyp_pos_length
    (new_hyp_scores_list env pr src_sent hyps hyp_scores)
    (min (new_hyp_scores_list env pr src_sent hyps hyp_scores).length
      (beam_size - completedCount))
  have hlive := apply_selected_foldl_live_len env hyps
    (aggregated_primitive_tokens src_sent) (applyrule_cands env pr hyps)
    (gentoken_prev_hyp_ids env pr (aggregated_primitive_tokens src_sent) hyps)
    (gentoken_new_hyp_unks env pr (aggregated_primitive_tokens src_sent) hyps)
    (new_hyp_scores_list env pr src_sent hyps hyp_scores)
    (top_new_hyp_pos (new_hyp_scores_list env pr src_sent hyps hyp_scores)
      (min (new_hyp_scores_list env pr src_sent hyps hyp_scores).length
        (beam_size - completedCount)))
    ⟨[], [], []⟩ rfl
  constructor
  · simp only [beam_step, apply_selected] at *
    simp only [List.length_nil, Nat.zero_add] at hcount
    omega
  · intro hne
    simp only [beam_step, apply_selected] at *
    have : (List.foldl (apply_selected_step env hyps
        (aggregated_primitive_tokens src_sent) (applyrule_cands env pr hyps)
        (gentoken_prev_hyp_ids env pr (aggregated_primitive_tokens src_sent) hyps)
        (gentoken_new_hyp_unks env pr (aggregated_primitive_tokens src_sent) hyps)
        (new_hyp_scores_list env pr src_sent hyps hyp_scores))
        ⟨[], [], []⟩
        (top_new_hyp_pos (new_hyp_scores_list env pr src_sent hyps hyp_scores)
          (min (new_hyp_scores_list env pr src_sent hyps hyp_scores).length
            (beam_size - completedCount)))).live_hyp_ids.length ≠ 0 := by
      intro h0
      exact hne (List.eq_nil_of_length_eq_zero h0)
    omega


/-! ### The result policy of `parse` -/

/-- Along the loop, every hypothesis in the live list is incomplete. -/
theorem beam_loop_live_incomplete {σ : Type} (env : Env σ) (oracle : Nat → StepProbs)
    (src_sent : List String) (beam_size : Nat) :
    ∀ (fuel t : Nat) (hyps : List (Hyp σ)) (hyp_scores : List Rat)
      (completed : List (Hyp σ)),
      (∀ h ∈ hyps, env.completed h.state = false) →
      ∀ h ∈ (beam_loop env oracle src_sent beam_size fuel t hyps hyp_scores
          completed).2, env.completed h.state = false := by
  intro fuel
  induction fuel with
  | zero => intro t hyps hyp_scores completed hinc h hh; exact hinc h hh
  | succ fuel ih =>
      intro t hyps hyp_scores completed hinc h hh
      rw [beam_loop] at hh
      by_cases hlt : completed.length < beam_size
      · rw [if_pos hlt] at hh
        by_cases hemp : (beam_step env (oracle t) src_sent hyps hyp_scores beam_size
            completed.length).out.live_hyp_ids.isEmpty
        · rw [if_pos hemp] at hh
          exact hinc h hh
        · rw [if_neg hemp] at hh
          refine ih _ _ _ _ ?_ h hh
          intro h2 hh2
          exact apply_selected_foldl_incomplete env hyps _ _ _ _ _ _ _
            (by intro h3 hh3; simp at hh3) h2 hh2
      · rw [if_neg hlt] at hh
        exact hinc h hh

/-- Claim C6.  When decoding ends with zero completed hypotheses, `parse` returns
the current live (incomplete) hypotheses sorted by descending cumulative
score, each with `completed = false`; when at least one hypothesis completed,
the completed set is returned instead, also sorted by descending score. -/
theorem parse_result_policy {σ : Type} (env : Env σ) (oracle : Nat → StepProbs)
    (src_sent : List String) (t0 : Nat) (hyps0 : List (Hyp σ))
    (decode_max_time_step beam_size : Nat)
    (hinc : ∀ h ∈ hyps0, env.completed h.state = false) :
    ((beam_loop env oracle src_sent beam_size (decode_max_time_step - t0) t0
        hyps0 [0] []).1 = [] →
      parse_from env oracle src_sent t0 hyps0 decode_max_time_step beam_size =
        result_sort (beam_loop env oracle src_sent beam_size
          (decode_max_time_step - t0) t0 hyps0 [0] []).2 ∧
      ∀ h ∈ parse_from env oracle src_sent t0 hyps0 decode_max_time_step beam_size,
        env.completed h.state = false) ∧
    ((beam_loop env oracle src_sent beam_size (decode_max_time_step - t0) t0
        hyps0 [0] []).1 ≠ [] →
      parse_from env oracle src_sent t0 hyps0 decode_max_time_step beam_size =
        result_sort (beam_loop env oracle src_sent beam_size
          (decode_max_time_step - t0) t0 hyps0 [0] []).1) ∧
    (parse_from env oracle src_sent t0 hyps0 decode_max_time_step
        beam_size).Sorted (score_desc (σ := σ)) := by
  refine ⟨?_, ?_, ?_⟩
  · intro hnil
    constructor
    · rw [parse_from]
      simp [hnil]
    · intro h hh
      rw [parse_from] at hh
      simp only [hnil, List.isEmpty_nil, if_true] at hh
      rw [result_sort, List.mem_insertionSort] at hh
      exact beam_loop_live_incomplete env oracle src_sent beam_size _ _ _ _ _ hinc h hh
  · intro hne
    rw [parse_from, if_neg (fun hb => hne (List.isEmpty_iff.mp hb))]
  · rw [parse_from]
    by_cases hnil : (beam_loop env oracle src_sent beam_size
        (decode_max_time_step - t0) t0 hyps0 [0] []).1.isEmpty
    · rw [if_pos hnil]
      exact List.sorted_insertionSort score_desc _
    · rw [if_neg hnil]
      exact List.sorted_insertionSort score_desc _


/-! ### Generate/copy aggregation (spec section 4.2) -/

theorem copy_add_entry_eq_zero {σ : Type} (env : Env σ) (pr : StepProbs)
    (hyp_id : Nat) (e : String × List Nat) (tok : String) (tid : Nat)
    (hinj : ∀ t1 t2 i, env.vocab.toId t1 = some i → env.vocab.toId t2 = some i →
      t1 = t2)
    (hsome : env.vocab.toId tok = some tid) (hne : e.1 ≠ tok) :
    copy_add_entry env pr hyp_id e tid = 0 := by
  unfold copy_add_entry
  rcases he : env.vocab.toId e.1 with _ | j
  · simp
  · simp only []
    by_cases hj : tid = j
    · subst hj
      exact absurd (hinj e.1 tok tid he hsome) hne
    · rw [if_neg hj]

/-- With a key-injective vocabulary, the copy pass adds at an in-vocabulary
token's slot exactly the gated copy mass summed over that token's occurrence
positions. -/
theorem copy_add_agg_eq {σ : Type} (env : Env σ) (pr : StepProbs) (hyp_id : Nat)
    (src_sent : List String) (tok : String) (tid : Nat)
    (hinj : ∀ t1 t2 i, env.vocab.toId t1 = some i → env.vocab.toId t2 = some i →
      t1 = t2)
    (hsome : env.vocab.toId tok = some tid) (hmem : tok ∈ src_sent) :
    copy_add env pr hyp_id (aggregated_primitive_tokens src_sent) tid =
      pr.gate_copy hyp_id * sum_copy_prob pr hyp_id (occurrences src_sent tok) := by
  have hma : (tok, occurrences src_sent tok) ∈ aggregated_primitive_tokens src_sent :=
    (mem_agg_iff src_sent tok _).mpr ⟨hmem, rfl⟩
  obtain ⟨l1, l2, hsplit⟩ := List.append_of_mem hma
  have hnd := agg_keys_nodup src_sent
  rw [hsplit, List.map_append, List.map_cons] at hnd
  have hd := List.nodup_append.mp hnd
  have hn1 : ∀ e ∈ l1, e.1 ≠ tok := by
    intro e he heq
    exact hd.2.2 (List.mem_map.mpr ⟨e, he, heq⟩) (List.mem_cons_self _ _)
  have hn2 : ∀ e ∈ l2, e.1 ≠ tok := by
    intro e he heq
    have := List.nodup_cons.mp hd.2.1
    exact this.1 (heq ▸ List.mem_map.mpr ⟨e, he, rfl⟩)
  rw [copy_add, hsplit, List.map_append, List.sum_append, List.map_cons, List.sum_cons]
  have h1 : (l1.map (fun e => copy_add_entry env pr hyp_id e tid)).sum = 0 := by
    refine List.sum_eq_zero ?_
    intro x hx
    obtain ⟨e, he, rfl⟩ := List.mem_map.mp hx
    exact copy_add_entry_eq_zero env pr hyp_id e tok tid hinj hsome (hn1 e he)
  have h2 : (l2.map (fun e => copy_add_entry env pr hyp_id e tid)).sum = 0 := by
    refine List.sum_eq_zero ?_
    intro x hx
    obtain ⟨e, he, rfl⟩ := List.mem_map.mp hx
    exact copy_add_entry_eq_zero env pr hyp_id e tok tid hinj hsome (hn2 e he)
  have hmid : copy_add_entry env pr hyp_id (tok, occurrences src_sent tok) tid =
      pr.gate_copy hyp_id * sum_copy_prob pr hyp_id (occurrences src_sent tok) := by
    unfold copy_add_entry
    simp [hsome]
  rw [h1, h2, hmid]
  ring

/-- At a non-unknown slot the GenToken iteration's row is the copy-pass row. -/
theorem gen_scan_step_row_ne_unk {σ : Type} (env : Env σ) (pr : StepProbs)
    (agg : List (String × List Nat)) (hyp_id : Nat) (acc : GenScan) (slot : Nat)
    (hnc : env.no_copy = false) (hs : slot ≠ env.vocab.unk) :
    (gen_scan_step env pr agg hyp_id acc ActType.genToken).row slot =
      (copy_pass env pr agg hyp_id acc.row).1 slot := by
  rw [gen_scan_step]
  simp only [hnc, Bool.false_eq_true, if_false]
  by_cases h2 : (copy_pass env pr agg hyp_id acc.row).2.isEmpty
  · simp [h2]
  · simp [h2, hs]

/-- Claim C2.  At a GenToken-legal step with copying enabled, for each distinct
surface token of the utterance the aggregated copy mass is the copy gate
times the sum of the copy-attention distribution over all of that token's
occurrence positions; for an in-vocabulary token this mass is added to the
gate-weighted generation probability at that token's vocabulary slot, and an
out-of-vocabulary token is accumulated as an unknown-copy candidate keyed by
that token.  In particular, for the utterance `"a a b"` the copy mass summed
for `"a"` is the attention mass at position 0 plus the attention mass at
position 1. -/
theorem generate_copy_aggregation {σ : Type} (env : Env σ) (pr : StepProbs)
    (src_sent : List String) (hyp_id : Nat) (s : σ)
    (hnc : env.no_copy = false)
    (hinj : ∀ t1 t2 i, env.vocab.toId t1 = some i → env.vocab.toId t2 = some i →
      t1 = t2)
    (hcount : (env.get_valid_continuation_types s).count ActType.genToken = 1) :
    (∀ tok tid, env.vocab.toId tok = some tid → tok ∈ src_sent →
      tid ≠ env.vocab.unk →
      (gen_scan env pr (aggregated_primitive_tokens src_sent) hyp_id s).row tid =
        pr.gate_gen hyp_id * pr.gen_from_vocab_prob hyp_id tid +
          pr.gate_copy hyp_id * sum_copy_prob pr hyp_id (occurrences src_sent tok)) ∧
    (∀ tok, env.vocab.toId tok = none → tok ∈ src_sent →
      (⟨tok, occurrences src_sent tok,
        pr.gate_copy hyp_id * sum_copy_prob pr hyp_id (occurrences src_sent tok)⟩ :
          UnkEntry) ∈
        unk_info_of env pr hyp_id (aggregated_primitive_tokens src_sent)) ∧
    (∀ (pr2 : StepProbs) (hid2 : Nat),
      sum_copy_prob pr2 hid2 (occurrences ["a", "a", "b"] "a") =
        pr2.primitive_copy_prob hid2 0 + pr2.primitive_copy_prob hid2 1) := by
  refine ⟨?_, ?_, ?_⟩
  · intro tok tid hsome hmem htid
    rw [gen_scan_of_count_one env pr _ hyp_id s hcount,
      gen_scan_step_row_ne_unk env pr _ hyp_id _ tid hnc htid,
      copy_pass_fst, copy_add_agg_eq env pr hyp_id src_sent tok tid hinj hsome hmem]
    simp [base_primitive_prob, hnc]
  · intro tok hnone hmem
    have hma : (tok, occurrences src_sent tok) ∈ aggregated_primitive_tokens src_sent :=
      (mem_agg_iff src_sent tok _).mpr ⟨hmem, rfl⟩
    refine List.mem_filterMap.mpr ⟨(tok, occurrences src_sent tok), hma, ?_⟩
    simp [hnone]
  · intro pr2 hid2
    have hocc : occurrences ["a", "a", "b"] "a" = [0, 1] := rfl
    rw [hocc, sum_copy_prob]
    simp


/-! ### Unknown-copy candidate selection -/

theorem unk_info_of_ne_nil {σ : Type} (env : Env σ) (pr : StepProbs)
    (hyp_id : Nat) (src_sent : List String) (tok : String)
    (hmem : tok ∈ src_sent) (hnone : env.vocab.toId tok = none) :
    unk_info_of env pr hyp_id (aggregated_primitive_tokens src_sent) ≠ [] := by
  have hma : (tok, occurrences src_sent tok) ∈ aggregated_primitive_tokens src_sent :=
    (mem_agg_iff src_sent tok _).mpr ⟨hmem, rfl⟩
  have : (⟨tok, occurrences src_sent tok,
      pr.gate_copy hyp_id * sum_copy_prob pr hyp_id (occurrences src_sent tok)⟩ :
        UnkEntry) ∈ unk_info_of env pr hyp_id (aggregated_primitive_tokens src_sent) := by
    refine List.mem_filterMap.mpr ⟨(tok, occurrences src_sent tok), hma, ?_⟩
    simp [hnone]
  exact List.ne_nil_of_mem this

theorem best_unk_mem {σ : Type} (env : Env σ) (pr : StepProbs) (hyp_id : Nat)
    (agg : List (String × List Nat))
    (hne : unk_info_of env pr hyp_id agg ≠ []) :
    best_unk env pr hyp_id agg ∈ unk_info_of env pr hyp_id agg := by
  have hlt : np_argmax ((unk_info_of env pr hyp_id agg).map UnkEntry.copy_prob) <
      (unk_info_of env pr hyp_id agg).length := by
    have := np_argmax_lt ((unk_info_of env pr hyp_id agg).map UnkEntry.copy_prob)
      (by simpa using hne)
    simpa using this
  rw [best_unk, List.getD_eq_getElem _ _ hlt]
  exact List.getElem_mem hlt

theorem best_unk_is_max {σ : Type} (env : Env σ) (pr : StepProbs) (hyp_id : Nat)
    (agg : List (String × List Nat))
    (hne : unk_info_of env pr hyp_id agg ≠ []) :
    ∀ e ∈ unk_info_of env pr hyp_id agg,
      e.copy_prob ≤ (best_unk env pr hyp_id agg).copy_prob := by
  intro e he
  have hlt : np_argmax ((unk_info_of env pr hyp_id agg).map UnkEntry.copy_prob) <
      (unk_info_of env pr hyp_id agg).length := by
    have := np_argmax_lt ((unk_info_of env pr hyp_id agg).map UnkEntry.copy_prob)
      (by simpa using hne)
    simpa using this
  have hmax := np_argmax_is_max ((unk_info_of env pr hyp_id agg).map UnkEntry.copy_prob)
    e.copy_prob (List.mem_map.mpr ⟨e, he, rfl⟩)
  have hgd : ((unk_info_of env pr hyp_id agg).map UnkEntry.copy_prob).getD
      (np_argmax ((unk_info_of env pr hyp_id agg).map UnkEntry.copy_prob)) 0 =
      (best_unk env pr hyp_id agg).copy_prob := by
    rw [best_unk, List.getD_eq_getElem _ _ (by simpa using hlt),
      List.getD_eq_getElem _ _ hlt, List.getElem_map]
  rw [hgd] at hmax
  exact hmax

/-- The GenToken iteration with copying enabled and a non-empty unknown-copy
list: the unknown slot is overwritten with the largest accumulated copy mass
and the matching surface token is recorded. -/
theorem gen_scan_step_unk_assign {σ : Type} (env : Env σ) (pr : StepProbs)
    (agg : List (String × List Nat)) (hyp_id : Nat) (acc : GenScan)
    (hnc : env.no_copy = false)
    (hne : unk_info_of env pr hyp_id agg ≠ []) :
    gen_scan_step env pr agg hyp_id acc ActType.genToken =
      ⟨fun slot => if slot = env.vocab.unk then (best_unk env pr hyp_id agg).copy_prob
        else (copy_pass env pr agg hyp_id acc.row).1 slot,
       acc.ids ++ [hyp_id],
       acc.unks ++ [(best_unk env pr hyp_id agg).token]⟩ := by
  have hsnd := copy_pass_snd env pr agg hyp_id acc.row
  have hemp : (copy_pass env pr agg hyp_id acc.row).2.isEmpty = false := by
    rw [hsnd]
    exact List.isEmpty_eq_false_iff_exists_mem.mpr
      (by rcases List.exists_mem_of_ne_nil _ hne with ⟨e, he⟩; exact ⟨e, he⟩)
  rw [gen_scan_step]
  simp only [hnc, Bool.false_eq_true, if_false, hemp]
  rw [best_unk]
  simp only [hsnd]

/-- A hypothesis's scan when its continuation types hold exactly one GenToken,
copying is enabled and some utterance token is out of vocabulary. -/
theorem gen_scan_full_char {σ : Type} (env : Env σ) (pr : StepProbs)
    (src_sent : List String) (hyp_id : Nat) (s : σ)
    (hnc : env.no_copy = false)
    (hcount : (env.get_valid_continuation_types s).count ActType.genToken = 1)
    (hne : unk_info_of env pr hyp_id (aggregated_primitive_tokens src_sent) ≠ []) :
    gen_scan env pr (aggregated_primitive_tokens src_sent) hyp_id s =
      ⟨fun slot => if slot = env.vocab.unk
          then (best_unk env pr hyp_id (aggregated_primitive_tokens src_sent)).copy_prob
          else (copy_pass env pr (aggregated_primitive_tokens src_sent) hyp_id
            (base_primitive_prob env pr hyp_id)).1 slot,
        [hyp_id],
        [(best_unk env pr hyp_id (aggregated_primitive_tokens src_sent)).token]⟩ := by
  rw [gen_scan_of_count_one env pr _ hyp_id s hcount,
    gen_scan_step_unk_assign env pr _ hyp_id _ hnc hne]
  rfl

theorem flatten_length_eq {α β : Type} :
    ∀ (ds : List (List α × List β)), (∀ p ∈ ds, p.1.length = p.2.length) →
      ((ds.map Prod.fst).flatten).length = ((ds.map Prod.snd).flatten).length := by
  intro ds
  induction ds with
  | nil => intro _; rfl
  | cons p rest ih =>
      intro hlen
      simp only [List.map_cons, List.flatten_cons, List.length_append]
      rw [ih (fun q hq => hlen q (List.mem_cons_of_mem _ hq)),
        hlen p (List.mem_cons_self _ _)]

/-- Reading position `k` of two flattened lists whose pieces have pairwise
equal lengths lands in the same piece at the same offset. -/
theorem flatten_align {α β : Type} (da : α) (db : β) :
    ∀ (ds : List (List α × List β)), (∀ p ∈ ds, p.1.length = p.2.length) →
      ∀ k, k < ((ds.map Prod.fst).flatten).length →
      ∃ p ∈ ds, ∃ j, j < p.1.length ∧
        ((ds.map Prod.fst).flatten).getD k da = p.1.getD j da ∧
        ((ds.map Prod.snd).flatten).getD k db = p.2.getD j db := by
  intro ds
  induction ds with
  | nil => intro _ k hk; simp at hk
  | cons p rest ih =>
      intro hlen k hk
      simp only [List.map_cons, List.flatten_cons] at hk ⊢
      by_cases hkp : k < p.1.length
      · refine ⟨p, List.mem_cons_self _ _, k, hkp, ?_, ?_⟩
        · rw [List.getD_append _ _ _ _ hkp]
        · rw [List.getD_append _ _ _ _
            (by rw [← hlen p (List.mem_cons_self _ _)]; exact hkp)]
      · have hk2 : k - p.1.length < ((rest.map Prod.fst).flatten).length := by
          rw [List.length_append] at hk
          omega
        obtain ⟨q, hq, j, hj, h1, h2⟩ :=
          ih (fun q hq => hlen q (List.mem_cons_of_mem _ hq)) (k - p.1.length) hk2
        refine ⟨q, List.mem_cons_of_mem _ hq, j, hj, ?_, ?_⟩
        · rw [List.getD_append_right _ _ _ _ (by omega)]
          exact h1
        · rw [List.getD_append_right _ _ _ _
            (by rw [← hlen p (List.mem_cons_self _ _)]; omega)]
          rw [← hlen p (List.mem_cons_self _ _)]
          exact h2

theorem gen_scan_list_getD {σ : Type} (env : Env σ) (pr : StepProbs)
    (agg : List (String × List Nat)) (hyps : List (Hyp σ)) (i : Nat)
    (hi : i < hyps.length) (d : GenScan) :
    (gen_scan_list env pr agg hyps).getD i d =
      gen_scan env pr agg i (hyps[i].state) := by
  rw [gen_scan_list, List.getD_eq_getElem _ _ (by simpa using hi),
    List.getElem_map, List.getElem_enum]


theorem lt_of_getElem?_some {α : Type} {l : List α} {i : Nat} {a : α}
    (h : l[i]? = some a) : i < l.length :=
  (List.getElem?_eq_some.mp h).1

theorem mem_of_getElem?_some {α : Type} {l : List α} {i : Nat} {a : α}
    (h : l[i]? = some a) : a ∈ l := by
  have hi := lt_of_getElem?_some h
  rw [List.getElem?_eq_getElem hi] at h
  exact Option.some.inj h ▸ List.getElem_mem hi

theorem getElem_of_getElem?_some {α : Type} {l : List α} {i : Nat} {a : α}
    (h : l[i]? = some a) : ∀ hi : i < l.length, l[i] = a := by
  intro hi
  rw [List.getElem?_eq_getElem hi] at h
  exact Option.some.inj h

/-- Claim C3.  At a GenToken step with copying enabled where at least one
utterance token is out of vocabulary and every hypothesis has at most one
GenToken continuation type, `gentoken_new_hyp_unks` aligns one-to-one with
`gentoken_prev_hyp_ids`; for the k-th GenToken hypothesis the unknown
vocabulary slot of its `primitive_prob` row is assigned the largest
accumulated unknown-copy mass, its surface token is recorded at index k, and
materializing the unknown-slot candidate of block k yields a GenToken action
whose token text is exactly the token recorded for that same hypothesis. -/
theorem parse_unknown_copy_selection {σ : Type} (env : Env σ) (pr : StepProbs)
    (src_sent : List String) (hyps : List (Hyp σ)) (k : Nat) (tokX : String)
    (hnc : env.no_copy = false)
    (hcount : ∀ h ∈ hyps,
      (env.get_valid_continuation_types h.state).count ActType.genToken ≤ 1)
    (hoovmem : tokX ∈ src_sent)
    (hoovnone : env.vocab.toId tokX = none)
    (hunk : env.vocab.unk < env.vocab.size)
    (hk : k < (gentoken_prev_hyp_ids env pr (aggregated_primitive_tokens src_sent)
      hyps).length) :
    (gentoken_new_hyp_unks env pr (aggregated_primitive_tokens src_sent) hyps).length =
      (gentoken_prev_hyp_ids env pr (aggregated_primitive_tokens src_sent) hyps).length ∧
    (gentoken_new_hyp_unks env pr (aggregated_primitive_tokens src_sent) hyps).getD k "" =
      (best_unk env pr
        ((gentoken_prev_hyp_ids env pr (aggregated_primitive_tokens src_sent) hyps).getD k 0)
        (aggregated_primitive_tokens src_sent)).token ∧
    best_unk env pr
        ((gentoken_prev_hyp_ids env pr (aggregated_primitive_tokens src_sent) hyps).getD k 0)
        (aggregated_primitive_tokens src_sent) ∈
      unk_info_of env pr
        ((gentoken_prev_hyp_ids env pr (aggregated_primitive_tokens src_sent) hyps).getD k 0)
        (aggregated_primitive_tokens src_sent) ∧
    primitive_prob_row env pr (aggregated_primitive_tokens src_sent) hyps
        ((gentoken_prev_hyp_ids env pr (aggregated_primitive_tokens src_sent) hyps).getD k 0)
        env.vocab.unk =
      (best_unk env pr
        ((gentoken_prev_hyp_ids env pr (aggregated_primitive_tokens src_sent) hyps).getD k 0)
        (aggregated_primitive_tokens src_sent)).copy_prob ∧
    (∀ e ∈ unk_info_of env pr
        ((gentoken_prev_hyp_ids env pr (aggregated_primitive_tokens src_sent) hyps).getD k 0)
        (aggregated_primitive_tokens src_sent),
      e.copy_prob ≤ (best_unk env pr
        ((gentoken_prev_hyp_ids env pr (aggregated_primitive_tokens src_sent) hyps).getD k 0)
        (aggregated_primitive_tokens src_sent)).copy_prob) ∧
    (materialize_action env (aggregated_primitive_tokens src_sent)
        (applyrule_cands env pr hyps)
        (gentoken_prev_hyp_ids env pr (aggregated_primitive_tokens src_sent) hyps)
        (gentoken_new_hyp_unks env pr (aggregated_primitive_tokens src_sent) hyps)
        ((applyrule_cands env pr hyps).length +
          (k * env.vocab.size + env.vocab.unk))).prev_hyp_id =
      (gentoken_prev_hyp_ids env pr (aggregated_primitive_tokens src_sent) hyps).getD k 0 ∧
    (materialize_action env (aggregated_primitive_tokens src_sent)
        (applyrule_cands env pr hyps)
        (gentoken_prev_hyp_ids env pr (aggregated_primitive_tokens src_sent) hyps)
        (gentoken_new_hyp_unks env pr (aggregated_primitive_tokens src_sent) hyps)
        ((applyrule_cands env pr hyps).length +
          (k * env.vocab.size + env.vocab.unk))).action =
      Action.genToken
        ((gentoken_new_hyp_unks env pr (aggregated_primitive_tokens src_sent) hyps).getD
          k "") := by
  have hds : ∀ p ∈ (gen_scan_list env pr (aggregated_primitive_tokens src_sent) hyps).map
      (fun sc => (sc.ids, sc.unks)), p.1.length = p.2.length ∧
      ∀ j, j < p.1.length →
        p.1.getD j 0 < hyps.length ∧
        p.2.getD j "" = (best_unk env pr (p.1.getD j 0)
          (aggregated_primitive_tokens src_sent)).token ∧
        primitive_prob_row env pr (aggregated_primitive_tokens src_sent) hyps
            (p.1.getD j 0) env.vocab.unk =
          (best_unk env pr (p.1.getD j 0) (aggregated_primitive_tokens src_sent)).copy_prob ∧
        unk_info_of env pr (p.1.getD j 0) (aggregated_primitive_tokens src_sent) ≠ [] := by
    intro p hp
    obtain ⟨sc, hsc, rfl⟩ := List.mem_map.mp hp
    rw [gen_scan_list] at hsc
    obtain ⟨q, hq, rfl⟩ := List.mem_map.mp hsc
    obtain ⟨i, h⟩ := q
    have hih : hyps[i]? = some h := List.mk_mem_enum_iff_getElem?.mp hq
    have hhm : h ∈ hyps := mem_of_getElem?_some hih
    have hilt : i < hyps.length := lt_of_getElem?_some hih
    have hcnt := hcount h hhm
    have hne := unk_info_of_ne_nil env pr i src_sent tokX hoovmem hoovnone
    rcases Nat.lt_or_ge
        ((env.get_valid_continuation_types h.state).count ActType.genToken) 1 with hc0 | hc1
    · have hc0 : (env.get_valid_continuation_types h.state).count ActType.genToken = 0 := by
        omega
      rw [gen_scan_of_count_zero env pr _ i h.state hc0]
      refine ⟨by trivial, ?_⟩
      intro j hj
      simp at hj
    · have hc1 : (env.get_valid_continuation_types h.state).count ActType.genToken = 1 := by
        omega
      rw [gen_scan_full_char env pr src_sent i h.state hnc hc1 hne]
      refine ⟨rfl, ?_⟩
      intro j hj
      simp only [List.length_singleton] at hj
      have hj0 : j = 0 := by omega
      subst hj0
      simp only [List.getD_cons_zero]
      refine ⟨hilt, by trivial, ?_, hne⟩
      rw [primitive_prob_row, gen_scan_list_getD env pr _ hyps i hilt,
        getElem_of_getElem?_some hih hilt,
        gen_scan_full_char env pr src_sent i h.state hnc hc1 hne]
      simp
  have hfst : ((gen_scan_list env pr (aggregated_primitive_tokens src_sent) hyps).map
      (fun sc => (sc.ids, sc.unks))).map Prod.fst =
      (gen_scan_list env pr (aggregated_primitive_tokens src_sent) hyps).map GenScan.ids := by
    rw [List.map_map]
    rfl
  have hsnd2 : ((gen_scan_list env pr (aggregated_primitive_tokens src_sent) hyps).map
      (fun sc => (sc.ids, sc.unks))).map Prod.snd =
      (gen_scan_list env pr (aggregated_primitive_tokens src_sent) hyps).map GenScan.unks := by
    rw [List.map_map]
    rfl
  have hlen := flatten_length_eq _ (fun p hp => (hds p hp).1)
  rw [hfst, hsnd2] at hlen
  have hlen2 : (gentoken_new_hyp_unks env pr (aggregated_primitive_tokens src_sent)
      hyps).length =
      (gentoken_prev_hyp_ids env pr (aggregated_primitive_tokens src_sent) hyps).length := by
    rw [gentoken_new_hyp_unks, gentoken_prev_hyp_ids]
    exact hlen.symm
  have hk2 : k < (((gen_scan_list env pr (aggregated_primitive_tokens src_sent) hyps).map
      (fun sc => (sc.ids, sc.unks))).map Prod.fst).flatten.length := by
    rw [hfst]
    exact hk
  obtain ⟨p, hp, j, hj, hgj1, hgj2⟩ := flatten_align 0 "" _ (fun p hp => (hds p hp).1) k hk2
  rw [hfst] at hgj1
  rw [hsnd2] at hgj2
  have hgj1 : (gentoken_prev_hyp_ids env pr (aggregated_primitive_tokens src_sent)
      hyps).getD k 0 = p.1.getD j 0 := hgj1
  have hgj2 : (gentoken_new_hyp_unks env pr (aggregated_primitive_tokens src_sent)
      hyps).getD k "" = p.2.getD j "" := hgj2
  obtain ⟨hplen, hpj⟩ := hds p hp
  obtain ⟨hilt, htokrec, hrow, hne⟩ := hpj j hj
  have hmatpos : ¬ ((applyrule_cands env pr hyps).length +
      (k * env.vocab.size + env.vocab.unk) < (applyrule_cands env pr hyps).length) := by
    omega
  have hsub : (applyrule_cands env pr hyps).length +
      (k * env.vocab.size + env.vocab.unk) - (applyrule_cands env pr hyps).length =
      k * env.vocab.size + env.vocab.unk := by
    omega
  have hmod : (k * env.vocab.size + env.vocab.unk) % env.vocab.size = env.vocab.unk := by
    rw [Nat.add_comm, Nat.add_mul_mod_self_right, Nat.mod_eq_of_lt hunk]
  have hdiv : (k * env.vocab.size + env.vocab.unk) / env.vocab.size = k := by
    rw [Nat.add_comm, Nat.add_mul_div_right _ _ (by omega : 0 < env.vocab.size),
      Nat.div_eq_of_lt hunk]
    omega
  have hgnne : (gentoken_new_hyp_unks env pr (aggregated_primitive_tokens src_sent)
      hyps).isEmpty = false := by
    have hpos : 0 < (gentoken_new_hyp_unks env pr (aggregated_primitive_tokens src_sent)
        hyps).length := by omega
    cases hgl : gentoken_new_hyp_unks env pr (aggregated_primitive_tokens src_sent) hyps with
    | nil => rw [hgl] at hpos; simp at hpos
    | cons a rest => rfl
  refine ⟨hlen2, ?_, ?_, ?_, ?_, ?_, ?_⟩
  · rw [hgj1, hgj2, htokrec]
  · rw [hgj1]
    exact best_unk_mem env pr _ _ hne
  · rw [hgj1]
    exact hrow
  · rw [hgj1]
    exact best_unk_is_max env pr _ _ hne
  · rw [materialize_action, if_neg hmatpos]
    simp only [hsub, hmod, hdiv]
  · rw [materialize_action, if_neg hmatpos]
    simp only [hsub, hmod, hdiv, if_pos rfl, hgnne, Bool.false_eq_true, if_false]
    rfl


/-! ### The unknown-slot fallback -/

theorem foldl_gen_scan_unks_nil {σ : Type} (env : Env σ) (pr : StepProbs)
    (agg : List (String × List Nat)) (hyp_id : Nat)
    (hcond : env.no_copy = true ∨ unk_info_of env pr hyp_id agg = []) :
    ∀ (tys : List ActType) (acc : GenScan),
      (tys.foldl (gen_scan_step env pr agg hyp_id) acc).unks = acc.unks := by
  intro tys
  induction tys with
  | nil => intro acc; rfl
  | cons ty rest ih =>
      intro acc
      rw [List.foldl_cons, ih]
      cases ty with
      | applyRule => rfl
      | reduce => rfl
      | genToken =>
          rcases hcond with hcond | hcond
          · rw [gen_scan_step]
            simp [hcond]
          · rw [gen_scan_step]
            have hemp : (copy_pass env pr agg hyp_id acc.row).2.isEmpty = true := by
              rw [copy_pass_snd, hcond]
              rfl
            by_cases hb : env.no_copy
            · simp [hb]
            · simp [hb, hemp]

/-- With copying disabled, or with every utterance token in vocabulary, no
unknown-copy surface token is recorded at the step. -/
theorem gentoken_new_hyp_unks_nil {σ : Type} (env : Env σ) (pr : StepProbs)
    (src_sent : List String) (hyps : List (Hyp σ))
    (hcond : env.no_copy = true ∨ ∀ tok ∈ src_sent, (env.vocab.toId tok).isSome) :
    gentoken_new_hyp_unks env pr (aggregated_primitive_tokens src_sent) hyps = [] := by
  rw [gentoken_new_hyp_unks]
  refine List.flatten_eq_nil_iff.mpr ?_
  intro l hl
  obtain ⟨sc, hsc, rfl⟩ := List.mem_map.mp hl
  rw [gen_scan_list] at hsc
  obtain ⟨q, hq, rfl⟩ := List.mem_map.mp hsc
  have hcond2 : env.no_copy = true ∨
      unk_info_of env pr q.1 (aggregated_primitive_tokens src_sent) = [] := by
    rcases hcond with hcond | hcond
    · exact Or.inl hcond
    · refine Or.inr (List.filterMap_eq_nil_iff.mpr ?_)
      intro e he
      have hmem : e.1 ∈ src_sent := by
        obtain ⟨he1, _⟩ := (mem_agg_iff src_sent e.1 e.2).mp (by
          obtain ⟨a, b⟩ := e
          exact he)
        exact he1
      have := hcond e.1 hmem
      rcases hsome : env.vocab.toId e.1 with _ | j
      · rw [hsome] at this
        simp at this
      · simp [hsome]
  exact foldl_gen_scan_unks_nil env pr _ q.1 hcond2 _ _

/-- Claim C10.  If a generation candidate at the unknown vocabulary slot is
selected but no unknown-copy surface token was recorded during the step —
`gentoken_new_hyp_unks` is empty, as happens whenever copying is disabled or
every utterance token is in vocabulary — then the emitted GenToken action
carries the primitive vocabulary's literal unknown word, not an utterance
token. -/
theorem parse_unknown_slot_fallback {σ : Type} (env : Env σ) (pr : StepProbs)
    (src_sent : List String) (hyps : List (Hyp σ))
    (hunk : env.vocab.unk < env.vocab.size) :
    (env.no_copy = true →
      gentoken_new_hyp_unks env pr (aggregated_primitive_tokens src_sent) hyps = []) ∧
    ((∀ tok ∈ src_sent, (env.vocab.toId tok).isSome) →
      gentoken_new_hyp_unks env pr (aggregated_primitive_tokens src_sent) hyps = []) ∧
    (gentoken_new_hyp_unks env pr (aggregated_primitive_tokens src_sent) hyps = [] →
      ∀ k, (materialize_action env (aggregated_primitive_tokens src_sent)
          (applyrule_cands env pr hyps)
          (gentoken_prev_hyp_ids env pr (aggregated_primitive_tokens src_sent) hyps)
          (gentoken_new_hyp_unks env pr (aggregated_primitive_tokens src_sent) hyps)
          ((applyrule_cands env pr hyps).length +
            (k * env.vocab.size + env.vocab.unk))).action =
        Action.genToken (env.vocab.idToWord env.vocab.unk)) := by
  refine ⟨?_, ?_, ?_⟩
  · intro hnc
    exact gentoken_new_hyp_unks_nil env pr src_sent hyps (Or.inl hnc)
  · intro hvoc
    exact gentoken_new_hyp_unks_nil env pr src_sent hyps (Or.inr hvoc)
  · intro hemp k
    have hmatpos : ¬ ((applyrule_cands env pr hyps).length +
        (k * env.vocab.size + env.vocab.unk) < (applyrule_cands env pr hyps).length) := by
      omega
    have hsub : (applyrule_cands env pr hyps).length +
        (k * env.vocab.size + env.vocab.unk) - (applyrule_cands env pr hyps).length =
        k * env.vocab.size + env.vocab.unk := by
      omega
    have hmod : (k * env.vocab.size + env.vocab.unk) % env.vocab.size = env.vocab.unk := by
      rw [Nat.add_comm, Nat.add_mul_mod_self_right, Nat.mod_eq_of_lt hunk]
    rw [materialize_action, if_neg hmatpos]
    simp only [hsub, hmod, if_pos rfl, hemp, List.isEmpty_nil, if_true]


/-! ### The resumption score bug -/

/-- Claim C4 (code bug).  Resuming `parse` from a saved partial hypothesis does not
reproduce an uninterrupted run: parser.py line 628 re-initialises the
`hyp_scores` tensor to `[0.]` for resumed calls too, although the resumed
hypothesis carries a non-zero cumulative score, so every GenToken candidate
of the first resumed step is scored `0 + log p` instead of
`hyp.score + log p` (ApplyRule/Reduce candidates at the same step do use
`hyp.score`, so the two candidate families are scored from different
baselines).  Concretely, with a saved hypothesis of score -2 at a
GenToken-legal frontier, the resumed first-step candidate at slot 0 scores
1/4, although the claim requires `hyp.score + log p = -7/4` — the value an
uninterrupted run, whose score tensor holds -2 at that point, would give —
and the resumed decode returns completions scored [3/4, 1/4], neither equal
to -2 plus the log-probability of either available action (-5/4 and -7/4). -/
theorem parse_resume_uses_stale_zero_score :
    (new_hyp_scores_list envB prB ["a"] [hypB] [0]).getD 0 0 = 1/4 ∧
    hypB.score + envB.lg (primitive_prob_row envB prB
      (aggregated_primitive_tokens ["a"]) [hypB] 0 0) = -7/4 ∧
    (new_hyp_scores_list envB prB ["a"] [hypB] [hypB.score]).getD 0 0 = -7/4 ∧
    ((1 : Rat)/4 ≠ -7/4) ∧
    (parse_resumed envB (fun _ => prB) ["a"] hypB 2 5).map Hyp.score = [3/4, 1/4] ∧
    ((3 : Rat)/4 ≠ -5/4) ∧ ((3 : Rat)/4 ≠ -7/4) ∧ ((1 : Rat)/4 ≠ -5/4) ∧
    ((1 : Rat)/4 ≠ -7/4) := by
  refine ⟨?_, ?_, ?_, by norm_num, ?_, by norm_num, by norm_num, by norm_num, by norm_num⟩
  · norm_num [new_hyp_scores_list, applyrule_cands, applyrule_cands_of_hyp, envB, hypB,
      gen_token_new_hyp_scores, gentoken_prev_hyp_ids, gen_scan_list, gen_scan, demoVocab,
      gen_scan_step, prB, primitive_log_prob, primitive_prob_row, base_primitive_prob,
      aggregated_primitive_tokens, aggAux, addOcc, List.enum, List.enumFrom]
  · norm_num [envB, hypB, prB, demoVocab, primitive_prob_row, base_primitive_prob,
      gen_scan_list, gen_scan, gen_scan_step, aggregated_primitive_tokens, aggAux,
      addOcc, List.enum, List.enumFrom]
  · norm_num [new_hyp_scores_list, applyrule_cands, applyrule_cands_of_hyp, envB, hypB,
      gen_token_new_hyp_scores, gentoken_prev_hyp_ids, gen_scan_list, gen_scan, demoVocab,
      gen_scan_step, prB, primitive_log_prob, primitive_prob_row, base_primitive_prob,
      aggregated_primitive_tokens, aggAux, addOcc, List.enum, List.enumFrom]
  · norm_num [parse_resumed, parse_from, beam_loop, beam_step, new_hyp_scores_list,
      applyrule_cands, applyrule_cands_of_hyp, envB, hypB, gen_token_new_hyp_scores,
      gentoken_prev_hyp_ids, gentoken_new_hyp_unks, gen_scan_list, gen_scan, demoVocab,
      gen_scan_step, prB, primitive_log_prob, primitive_prob_row, base_primitive_prob,
      aggregated_primitive_tokens, aggAux, addOcc, List.enum, List.enumFrom,
      top_new_hyp_pos, List.insertionSort, List.orderedInsert, candRank,
      apply_selected, apply_selected_step, materialize_action, aggLookup,
      result_sort, score_desc, List.range, List.range.loop]

/-! ### Numerical masking -/

/-- Claim C8, counterexample.  In `parse` no masked-out probability is replaced
by a negligible constant before the logarithm is taken: hypothesis 0's legal
continuation types exclude GenToken, yet its `primitive_prob` row enters
`torch.log` (parser.py line 811) unchanged — its value at slot 1 is the
gate-weighted generation probability itself, 3/8 here and 1/4 under
different Scorer outputs, so it is no fixed constant and far above the 1e-7
used by `score`. -/
theorem parse_no_mask_fill_before_log :
    (ActType.genToken ∉ envA.get_valid_continuation_types
      ((hypsA.getD 0 ⟨0, 0, 0⟩).state)) ∧
    gentoken_prev_hyp_ids envA prA (aggregated_primitive_tokens ["a", "a", "b"])
      hypsA = [1] ∧
    primitive_log_prob envA prA (aggregated_primitive_tokens ["a", "a", "b"])
      hypsA 0 1 =
      envA.lg (primitive_prob_row envA prA (aggregated_primitive_tokens ["a", "a", "b"])
        hypsA 0 1) ∧
    primitive_prob_row envA prA (aggregated_primitive_tokens ["a", "a", "b"])
      hypsA 0 1 = 3/8 ∧
    primitive_prob_row envA prA2 (aggregated_primitive_tokens ["a", "a", "b"])
      hypsA 0 1 = 1/4 ∧
    ((3 : Rat)/8 ≠ 1/4) ∧ ((1 : Rat)/10000000 < 3/8) := by
  refine ⟨by simp [envA, hypsA], ?_, rfl, ?_, ?_, by norm_num, by norm_num⟩
  · simp +decide [gentoken_prev_hyp_ids, gen_scan_list, gen_scan, gen_scan_step, envA, prA,
      demoVocab, hypsA, aggregated_primitive_tokens, aggAux, addOcc, List.enum,
      List.enumFrom, base_primitive_prob, copy_pass, copy_pass_step, sum_copy_prob,
      aggLookup, List.foldl_cons, List.foldl_nil]
  · norm_num [primitive_prob_row, gen_scan_list, gen_scan, gen_scan_step, envA, prA,
      demoVocab, hypsA, aggregated_primitive_tokens, aggAux, addOcc, List.enum,
      List.enumFrom, base_primitive_prob]
  · norm_num [primitive_prob_row, gen_scan_list, gen_scan, gen_scan_step, envA, prA2,
      demoVocab, hypsA, aggregated_primitive_tokens, aggAux, addOcc, List.enum,
      List.enumFrom, base_primitive_prob]

theorem action_mask_pad_of_none (exs : List TFExample) (t b : Nat)
    (hpad : (exampleAt exs b).tgt_actions[t]? = none) :
    action_mask_pad exs t b = true := by
  rw [action_mask_pad]
  simp [apply_rule_mask, gen_token_mask, primitive_copy_mask, hpad]

theorem action_prob_tb_of_pad (lg : Rat → Rat) (G : Nat) (vocab : Vocab)
    (sp : ScoreProbs) (exs : List TFExample) (t b : Nat)
    (hpad : (exampleAt exs b).tgt_actions[t]? = none) :
    action_prob_tb lg G vocab sp exs t b = 0 := by
  rw [action_prob_tb, if_pos (action_mask_pad_of_none exs t b hpad)]
  ring

/-- Claim C8, amended.  Only teacher-forced scoring with copy enabled replaces
masked-out probabilities: at every fully masked position (no action type
applicable, i.e. batch padding) the value entering the logarithm is exactly
the small positive constant 1e-7, not zero, and the position contributes
exactly zero to the sequence score, so no non-finite value propagates; beam
search performs no such replacement (see the counterexample: `parse` logs
the aggregated probabilities unchanged). -/
theorem score_mask_fill_negligible (lg : Rat → Rat) (G : Nat) (vocab : Vocab)
    (sp : ScoreProbs) (exs : List TFExample) (t b : Nat)
    (hpad : (exampleAt exs b).tgt_actions[t]? = none) :
    action_mask_pad exs t b = true ∧
    action_prob_filled G vocab sp exs t b = 1 / 10000000 ∧
    (0 : Rat) < action_prob_filled G vocab sp exs t b ∧
    action_prob_tb lg G vocab sp exs t b = 0 := by
  have hm := action_mask_pad_of_none exs t b hpad
  refine ⟨hm, ?_, ?_, action_prob_tb_of_pad lg G vocab sp exs t b hpad⟩
  · rw [action_prob_filled, if_pos hm]
  · rw [action_prob_filled, if_pos hm]
    norm_num

theorem score_mask_fill_negligible_witness :
    (exampleAt [⟨["a"], [Action.reduce]⟩] 0).tgt_actions[1]? = none ∧
    (action_mask_pad [⟨["a"], [Action.reduce]⟩] 1 0 = true ∧
      action_prob_filled 3 demoVocab
        ⟨fun _ _ _ => 1/2, fun _ _ _ => 1/2, fun _ _ _ => 1/2, fun _ _ => 1/2,
          fun _ _ => 1/2⟩ [⟨["a"], [Action.reduce]⟩] 1 0 = 1 / 10000000 ∧
      (0 : Rat) < action_prob_filled 3 demoVocab
        ⟨fun _ _ _ => 1/2, fun _ _ _ => 1/2, fun _ _ _ => 1/2, fun _ _ => 1/2,
          fun _ _ => 1/2⟩ [⟨["a"], [Action.reduce]⟩] 1 0 ∧
      action_prob_tb (fun x => x) 3 demoVocab
        ⟨fun _ _ _ => 1/2, fun _ _ _ => 1/2, fun _ _ _ => 1/2, fun _ _ => 1/2,
          fun _ _ => 1/2⟩ [⟨["a"], [Action.reduce]⟩] 1 0 = 0) :=
  ⟨rfl, score_mask_fill_negligible (fun x => x) 3 demoVocab _ _ 1 0 rfl⟩

/-! ### Teacher-forced scoring computes the gold log-likelihood -/

theorem le_foldr_max (l : List Nat) (x : Nat) (hx : x ∈ l) : x ≤ l.foldr max 0 := by
  induction l with
  | nil => simp at hx
  | cons a rest ih =>
      rcases List.mem_cons.mp hx with h | h
      · subst h
        exact le_max_left _ _
      · exact le_trans (ih h) (le_max_right _ _)

theorem length_le_max_action_num (exs : List TFExample) (b : Nat) :
    (exampleAt exs b).tgt_actions.length ≤ max_action_num exs := by
  by_cases hb : b < exs.length
  · have hmem : exampleAt exs b ∈ exs := by
      rw [exampleAt, List.getD_eq_getElem _ _ hb]
      exact List.getElem_mem hb
    exact le_foldr_max _ _ (List.mem_map.mpr ⟨_, hmem, rfl⟩)
  · rw [exampleAt, List.getD_eq_default _ _ (by omega)]
    exact Nat.zero_le _

theorem sum_range_pad (f g : Nat → Rat) (len : Nat) : ∀ (L : Nat), len ≤ L →
    (∀ t, t < len → f t = g t) → (∀ t, len ≤ t → t < L → f t = 0) →
    ((List.range L).map f).sum = ((List.range len).map g).sum := by
  intro L
  induction L with
  | zero =>
      intro hL hfg hf0
      have h0 : len = 0 := by omega
      subst h0
      rfl
  | succ L ih =>
      intro hL hfg hf0
      by_cases hl : len ≤ L
      · rw [List.range_succ, List.map_append, List.sum_append]
        simp only [List.map_cons, List.map_nil, List.sum_cons, List.sum_nil, add_zero]
        rw [hf0 L hl (by omega), add_zero]
        exact ih hl hfg (fun t h1 h2 => hf0 t h1 (by omega))
      · have hlen : len = L + 1 := by omega
        subst hlen
        rw [List.map_congr_left (fun t htm => hfg t (List.mem_range.mp htm))]

theorem action_prob_tb_gold (lg : Rat → Rat) (G : Nat) (vocab : Vocab)
    (sp : ScoreProbs) (exs : List TFExample) (b t : Nat)
    (ht : t < (exampleAt exs b).tgt_actions.length) :
    action_prob_tb lg G vocab sp exs t b = gold_step_term lg G vocab sp exs b t := by
  have ha : (exampleAt exs b).tgt_actions[t]? =
      some ((exampleAt exs b).tgt_actions[t]) := List.getElem?_eq_getElem ht
  cases hact : (exampleAt exs b).tgt_actions[t] with
  | applyRule p =>
      rw [hact] at ha
      have hnp : action_mask_pad exs t b = false := by
        rw [action_mask_pad]
        simp [apply_rule_mask, gen_token_mask, primitive_copy_mask, ha]
      have hpre : action_prob_pre G vocab sp exs t b = sp.apply_rule_prob t b p := by
        rw [action_prob_pre, tgt_apply_rule_prob, apply_rule_idx]
        simp only [ha, apply_rule_mask, gen_token_mask, primitive_copy_mask]
        ring
      rw [action_prob_tb, action_prob_filled, hnp, if_neg (by simp), if_neg (by simp),
        hpre, gold_step_term, ha]
      ring
  | reduce =>
      rw [hact] at ha
      have hnp : action_mask_pad exs t b = false := by
        rw [action_mask_pad]
        simp [apply_rule_mask, gen_token_mask, primitive_copy_mask, ha]
      have hpre : action_prob_pre G vocab sp exs t b = sp.apply_rule_prob t b G := by
        rw [action_prob_pre, tgt_apply_rule_prob, apply_rule_idx]
        simp only [ha, apply_rule_mask, gen_token_mask, primitive_copy_mask]
        ring
      rw [action_prob_tb, action_prob_filled, hnp, if_neg (by simp), if_neg (by simp),
        hpre, gold_step_term, ha]
      ring
  | genToken tok =>
      rw [hact] at ha
      have hnp : action_mask_pad exs t b = false := by
        rw [action_mask_pad]
        by_cases hsrc : tok ∈ (exampleAt exs b).src_sent
        · simp [apply_rule_mask, gen_token_mask, primitive_copy_mask, ha, hsrc]
        · simp [apply_rule_mask, gen_token_mask, primitive_copy_mask, ha, hsrc]
      have hpre : action_prob_pre G vocab sp exs t b =
          sp.gate_gen t b * sp.gen_from_vocab_prob t b ((vocab.toId tok).getD vocab.unk) +
            (if tok ∈ (exampleAt exs b).src_sent then
              sp.gate_copy t b * ((List.range (src_max_len exs)).map (fun pos =>
                if (exampleAt exs b).src_sent[pos]? = some tok then
                  sp.primitive_copy_prob t b pos else 0)).sum
            else 0) := by
        rw [action_prob_pre, tgt_primitive_gen_from_vocab_prob, primitive_idx,
          tgt_primitive_copy_prob]
        simp only [ha, apply_rule_mask, gen_token_mask, primitive_copy_mask]
        by_cases hsrc : tok ∈ (exampleAt exs b).src_sent
        · rw [if_pos hsrc, if_pos hsrc]
          have hcongr : ((List.range (src_max_len exs)).map (fun pos =>
              sp.primitive_copy_prob t b pos *
                primitive_copy_token_idx_mask (exampleAt exs b) t pos)).sum =
              ((List.range (src_max_len exs)).map (fun pos =>
                if (exampleAt exs b).src_sent[pos]? = some tok then
                  sp.primitive_copy_prob t b pos else 0)).sum := by
            refine congrArg List.sum (List.map_congr_left ?_)
            intro pos _
            simp only [primitive_copy_token_idx_mask, ha]
            by_cases hp : (exampleAt exs b).src_sent[pos]? = some tok
            · rw [if_pos hp, if_pos hp]
              ring
            · rw [if_neg hp, if_neg hp]
              ring
          rw [hcongr]
          ring
        · rw [if_neg hsrc, if_neg hsrc]
          ring
      rw [action_prob_tb, action_prob_filled, hnp, if_neg (by simp), if_neg (by simp),
        hpre, gold_step_term, ha]
      ring

/-- Claim C9.  For each example of a batch, teacher-forced scoring with copy
enabled returns the sum over the example's decoding steps of the per-step
log-probability of the single gold action, where the masks select exactly the
applicable term: the gold ApplyRule/Reduce probability, the generate-gated
vocabulary probability of the gold token, and additionally the copy-gated
attention mass marginalized over all source positions holding the gold token
when it occurs in the utterance.  The right-hand side is a straight sum over
the gold sequence: no top-K competitive selection takes place. -/
theorem score_is_gold_log_likelihood (lg : Rat → Rat) (G : Nat) (vocab : Vocab)
    (sp : ScoreProbs) (exs : List TFExample) (b : Nat) :
    score_with_copy lg G vocab sp exs b =
      ((List.range (exampleAt exs b).tgt_actions.length).map
        (gold_step_term lg G vocab sp exs b)).sum := by
  rw [score_with_copy]
  refine sum_range_pad _ _ _ _ (length_le_max_action_num exs b) ?_ ?_
  · intro t ht
    exact action_prob_tb_gold lg G vocab sp exs b t ht
  · intro t ht _
    exact action_prob_tb_of_pad lg G vocab sp exs t b
      (List.getElem?_eq_none (by omega))


/-! ### Concrete witnesses -/

theorem generate_copy_aggregation_witness :
    envA.no_copy = false ∧
    (envA.get_valid_continuation_types (1 : Nat)).count ActType.genToken = 1 ∧
    ((∀ tok tid, envA.vocab.toId tok = some tid → tok ∈ srcDemo →
      tid ≠ envA.vocab.unk →
      (gen_scan envA prA (aggregated_primitive_tokens srcDemo) 1 1).row tid =
        prA.gate_gen 1 * prA.gen_from_vocab_prob 1 tid +
          prA.gate_copy 1 * sum_copy_prob prA 1 (occurrences srcDemo tok)) ∧
    (∀ tok, envA.vocab.toId tok = none → tok ∈ srcDemo →
      (⟨tok, occurrences srcDemo tok,
        prA.gate_copy 1 * sum_copy_prob prA 1 (occurrences srcDemo tok)⟩ :
          UnkEntry) ∈
        unk_info_of envA prA 1 (aggregated_primitive_tokens srcDemo)) ∧
    (∀ (pr2 : StepProbs) (hid2 : Nat),
      sum_copy_prob pr2 hid2 (occurrences ["a", "a", "b"] "a") =
        pr2.primitive_copy_prob hid2 0 + pr2.primitive_copy_prob hid2 1)) :=
  ⟨rfl, by decide,
   generate_copy_aggregation envA prA srcDemo 1 1 rfl
    (by
      intro t1 t2 i h1 h2
      by_cases ha1 : t1 = "a"
      · by_cases ha2 : t2 = "a"
        · rw [ha1, ha2]
        · simp [envA, demoVocab, ha2] at h2
      · simp [envA, demoVocab, ha1] at h1)
    (by decide)⟩

theorem parse_unknown_copy_selection_witness :
    envA.no_copy = false ∧
    (∀ h ∈ hypsA,
      (envA.get_valid_continuation_types h.state).count ActType.genToken ≤ 1) ∧
    "b" ∈ srcDemo ∧ envA.vocab.toId "b" = none ∧
    envA.vocab.unk < envA.vocab.size ∧
    0 < (gentoken_prev_hyp_ids envA prA (aggregated_primitive_tokens srcDemo)
      hypsA).length ∧
    ((gentoken_new_hyp_unks envA prA (aggregated_primitive_tokens srcDemo)
        hypsA).length =
      (gentoken_prev_hyp_ids envA prA (aggregated_primitive_tokens srcDemo)
        hypsA).length ∧
    (gentoken_new_hyp_unks envA prA (aggregated_primitive_tokens srcDemo)
        hypsA).getD 0 "" =
      (best_unk envA prA
        ((gentoken_prev_hyp_ids envA prA (aggregated_primitive_tokens srcDemo)
          hypsA).getD 0 0)
        (aggregated_primitive_tokens srcDemo)).token ∧
    best_unk envA prA
        ((gentoken_prev_hyp_ids envA prA (aggregated_primitive_tokens srcDemo)
          hypsA).getD 0 0)
        (aggregated_primitive_tokens srcDemo) ∈
      unk_info_of envA prA
        ((gentoken_prev_hyp_ids envA prA (aggregated_primitive_tokens srcDemo)
          hypsA).getD 0 0)
        (aggregated_primitive_tokens srcDemo) ∧
    primitive_prob_row envA prA (aggregated_primitive_tokens srcDemo) hypsA
        ((gentoken_prev_hyp_ids envA prA (aggregated_primitive_tokens srcDemo)
          hypsA).getD 0 0)
        envA.vocab.unk =
      (best_unk envA prA
        ((gentoken_prev_hyp_ids envA prA (aggregated_primitive_tokens srcDemo)
          hypsA).getD 0 0)
        (aggregated_primitive_tokens srcDemo)).copy_prob ∧
    (∀ e ∈ unk_info_of envA prA
        ((gentoken_prev_hyp_ids envA prA (aggregated_primitive_tokens srcDemo)
          hypsA).getD 0 0)
        (aggregated_primitive_tokens srcDemo),
      e.copy_prob ≤ (best_unk envA prA
        ((gentoken_prev_hyp_ids envA prA (aggregated_primitive_tokens srcDemo)
          hypsA).getD 0 0)
        (aggregated_primitive_tokens srcDemo)).copy_prob) ∧
    (materialize_action envA (aggregated_primitive_tokens srcDemo)
        (applyrule_cands envA prA hypsA)
        (gentoken_prev_hyp_ids envA prA (aggregated_primitive_tokens srcDemo) hypsA)
        (gentoken_new_hyp_unks envA prA (aggregated_primitive_tokens srcDemo) hypsA)
        ((applyrule_cands envA prA hypsA).length +
          (0 * envA.vocab.size + envA.vocab.unk))).prev_hyp_id =
      (gentoken_prev_hyp_ids envA prA (aggregated_primitive_tokens srcDemo)
        hypsA).getD 0 0 ∧
    (materialize_action envA (aggregated_primitive_tokens srcDemo)
        (applyrule_cands envA prA hypsA)
        (gentoken_prev_hyp_ids envA prA (aggregated_primitive_tokens srcDemo) hypsA)
        (gentoken_new_hyp_unks envA prA (aggregated_primitive_tokens srcDemo) hypsA)
        ((applyrule_cands envA prA hypsA).length +
          (0 * envA.vocab.size + envA.vocab.unk))).action =
      Action.genToken
        ((gentoken_new_hyp_unks envA prA (aggregated_primitive_tokens srcDemo)
          hypsA).getD 0 "")) :=
  ⟨rfl, by decide, by decide, by decide, by decide, by decide,
   parse_unknown_copy_selection envA prA srcDemo hypsA 0 "b" rfl (by decide)
     (by decide) (by decide) (by decide) (by decide)⟩

theorem parse_actions_grammar_legal_witness :
    0 < envA.vocab.size ∧
    (∀ s : Nat, ∀ p ∈ envA.get_valid_continuating_productions s,
      p < envA.grammarSize) ∧
    (∀ i ∈ selected_positions envA prA srcDemo hypsA [-1, -2] 5 0,
      ∃ h : Hyp Nat,
        hypsA[(materialize_action envA (aggregated_primitive_tokens srcDemo)
            (applyrule_cands envA prA hypsA)
            (gentoken_prev_hyp_ids envA prA (aggregated_primitive_tokens srcDemo) hypsA)
            (gentoken_new_hyp_unks envA prA (aggregated_primitive_tokens srcDemo) hypsA)
            i).prev_hyp_id]? = some h ∧
        (match (materialize_action envA (aggregated_primitive_tokens srcDemo)
            (applyrule_cands envA prA hypsA)
            (gentoken_prev_hyp_ids envA prA (aggregated_primitive_tokens srcDemo) hypsA)
            (gentoken_new_hyp_unks envA prA (aggregated_primitive_tokens srcDemo) hypsA)
            i).action with
         | Action.applyRule p =>
             ActType.applyRule ∈ envA.get_valid_continuation_types h.state ∧
               p ∈ envA.get_valid_continuating_productions h.state
         | Action.reduce => ActType.reduce ∈ envA.get_valid_continuation_types h.state
         | Action.genToken _ =>
             ActType.genToken ∈ envA.get_valid_continuation_types h.state)) :=
  ⟨by decide,
   (by
     intro s p hp
     simp [envA] at hp ⊢
     omega),
   parse_actions_grammar_legal envA prA srcDemo hypsA [-1, -2] 5 0 (by decide)
     (by
       intro s p hp
       simp [envA] at hp ⊢
       omega)⟩

theorem parse_result_policy_witness :
    (∀ h ∈ [(⟨0, 0, 0⟩ : Hyp Nat)], envA.completed h.state = false) ∧
    (((beam_loop envA (fun _ => prA) srcDemo 2 (1 - 0) 0
        [(⟨0, 0, 0⟩ : Hyp Nat)] [0] []).1 = [] →
      parse_from envA (fun _ => prA) srcDemo 0 [(⟨0, 0, 0⟩ : Hyp Nat)] 1 2 =
        result_sort (beam_loop envA (fun _ => prA) srcDemo 2 (1 - 0) 0
          [(⟨0, 0, 0⟩ : Hyp Nat)] [0] []).2 ∧
      ∀ h ∈ parse_from envA (fun _ => prA) srcDemo 0 [(⟨0, 0, 0⟩ : Hyp Nat)] 1 2,
        envA.completed h.state = false) ∧
    ((beam_loop envA (fun _ => prA) srcDemo 2 (1 - 0) 0
        [(⟨0, 0, 0⟩ : Hyp Nat)] [0] []).1 ≠ [] →
      parse_from envA (fun _ => prA) srcDemo 0 [(⟨0, 0, 0⟩ : Hyp Nat)] 1 2 =
        result_sort (beam_loop envA (fun _ => prA) srcDemo 2 (1 - 0) 0
          [(⟨0, 0, 0⟩ : Hyp Nat)] [0] []).1) ∧
    (parse_from envA (fun _ => prA) srcDemo 0 [(⟨0, 0, 0⟩ : Hyp Nat)] 1 2).Sorted
      (score_desc (σ := Nat))) :=
  ⟨by decide,
   parse_result_policy envA (fun _ => prA) srcDemo 0 [(⟨0, 0, 0⟩ : Hyp Nat)] 1 2
     (by decide)⟩

theorem parse_beam_size_invariant_witness :
    (0 : Nat) < 5 ∧
    ((beam_step envA prA srcDemo hypsA [-1, -2] 5 0).out.new_hypotheses.length +
      (0 + (beam_step envA prA srcDemo hypsA [-1, -2] 5
        0).out.new_completed.length) ≤ 5 ∧
    ((beam_step envA prA srcDemo hypsA [-1, -2] 5 0).out.live_hyp_ids ≠ [] →
      1 ≤ (beam_step envA prA srcDemo hypsA [-1, -2] 5
          0).out.new_hypotheses.length +
        (0 + (beam_step envA prA srcDemo hypsA [-1, -2] 5
          0).out.new_completed.length))) :=
  ⟨by decide, parse_beam_size_invariant envA prA srcDemo hypsA [-1, -2] 5 0 (by decide)⟩

theorem parse_unknown_slot_fallback_witness :
    envB.vocab.unk < envB.vocab.size ∧
    ((envB.no_copy = true →
      gentoken_new_hyp_unks envB prB (aggregated_primitive_tokens ["a"]) [hypB] = []) ∧
    ((∀ tok ∈ ["a"], (envB.vocab.toId tok).isSome) →
      gentoken_new_hyp_unks envB prB (aggregated_primitive_tokens ["a"]) [hypB] = []) ∧
    (gentoken_new_hyp_unks envB prB (aggregated_primitive_tokens ["a"]) [hypB] = [] →
      ∀ k, (materialize_action envB (aggregated_primitive_tokens ["a"])
          (applyrule_cands envB prB [hypB])
          (gentoken_prev_hyp_ids envB prB (aggregated_primitive_tokens ["a"]) [hypB])
          (gentoken_new_hyp_unks envB prB (aggregated_primitive_tokens ["a"]) [hypB])
          ((applyrule_cands envB prB [hypB]).length +
            (k * envB.vocab.size + envB.vocab.unk))).action =
        Action.genToken (envB.vocab.idToWord envB.vocab.unk))) :=
  ⟨by decide, parse_unknown_slot_fallback envB prB ["a"] [hypB] (by decide)⟩

end Multivac
